import Mathlib
/-
  Verification of the document knowledge-base engine:
  shallow embedding of the ingestion pipeline (DocumentService), the
  generic and tabular chunkers, the embedding client (OpenAIService)
  and the search/ranking algorithm, with proofs of the spec claims.
  Texts are embedded as `List Char`; machine floats of the source are
  modelled as rationals; the fallible external embedding provider is a
  parameter returning `Option`/the empty list on failure, exactly as the
  source treats it.
-/

/-! ## Basic Python string operations -/

/-- Characters removed by Python `str.strip()` (ASCII whitespace). -/
def isPySpace (c : Char) : Bool :=
  c = ' ' || c = '\t' || c = '\n' || c = '\r' || c = '\x0b' || c = '\x0c'

/-- Python `str.strip()`: drop whitespace from both ends. -/
def pyStrip (s : List Char) : List Char :=
  ((s.dropWhile isPySpace).reverse.dropWhile isPySpace).reverse

/-- Source `leadsWith p s`: `p` is a prefix of `s` (Python `str.startswith`). -/
def leadsWith : List Char → List Char → Bool
  | [], _ => true
  | _ :: _, [] => false
  | p :: ps, c :: cs => p = c && leadsWith ps cs

/-- Python `str.rfind(ch, start, stop)`: index of the last occurrence of
`ch` in `s[start:stop]`, or `-1` when there is none.  Defined by downward
recursion on `stop`. -/
def pyRfind (s : List Char) (ch : Char) (start : Nat) : Nat → Int
  | 0 => -1
  | stop + 1 =>
    if start ≤ stop ∧ stop < s.length ∧ s.get? stop = some ch then (stop : Int)
    else pyRfind s ch start stop

/-! ## DocumentService._split_into_chunks (src/app/services/document_service.py) -/

/-- Source `self.chunk_size = 800`. -/
def chunkSize : Nat := 800

/-- Source `self.chunk_overlap = 100`. -/
def chunkOverlap : Nat := 100

/-- Source `self.max_chunks_per_document = 100`. -/
def maxChunksPerDocument : Nat := 100

/-- Source `max(content.rfind('.',start,end), content.rfind('!',start,end),
content.rfind('?',start,end))` from `_split_into_chunks`. -/
def sentenceEnd (content : List Char) (start e : Nat) : Int :=
  max (max (pyRfind content '.' start e) (pyRfind content '!' start e))
      (pyRfind content '?' start e)

/-- The boundary computation of one iteration of `_split_into_chunks`:
propose `end = start + chunk_size`; if that is inside the text, prefer the
last sentence terminator past `start + chunk_size // 3`, else the last
space past the same point, else keep `start + chunk_size`. -/
def computeEnd (content : List Char) (start : Nat) : Nat :=
  let e := start + chunkSize
  if e < content.length then
    let se := sentenceEnd content start e
    if se > (start : Int) + (chunkSize / 3 : Nat) then se.toNat + 1
    else
      let we := pyRfind content ' ' start e
      if we > (start : Int) + (chunkSize / 3 : Nat) then we.toNat
      else e
  else e

/-- The `while start < len(content)` loop of `_split_into_chunks`,
with explicit fuel (the loop strictly advances `start`, so
`content.length + 1` fuel is always enough). -/
def splitLoop (content : List Char) : Nat → Nat → List (List Char) → List (List Char)
  | 0, _, chunks => chunks
  | fuel + 1, start, chunks =>
    if start < content.length then
      let e := computeEnd content start
      let chunk := pyStrip ((content.drop start).take (e - start))
      let chunks' := if chunk.length > 20 then chunks ++ [chunk] else chunks
      let start' := e - chunkOverlap
      if start' ≥ content.length then chunks'
      else if chunks'.length > maxChunksPerDocument then chunks'
      else splitLoop content fuel start' chunks'
    else chunks

/-- Source `DocumentService._split_into_chunks`: returns `[]` for text stripping
to fewer than 50 characters, otherwise runs the boundary-seeking loop on
the stripped text. -/
def splitIntoChunks (content : List Char) : List (List Char) :=
  if content = [] ∨ (pyStrip content).length < 50 then []
  else
    let c := pyStrip content
    splitLoop c (c.length + 1) 0 []

/-! ## The generic chunking algorithm as the spec words it (for C1) -/

/-- A sentence terminator per the spec: `.`, `!` or `?`. -/
def isSentenceTerminator (c : Char) : Bool :=
  c = '.' || c = '!' || c = '?'

/-- Index of the last character in `t[start:stop]` satisfying `p`
(the spec's backward search within the window). -/
def lastIdxSat (t : List Char) (p : Char → Bool) (start : Nat) : Nat → Option Nat
  | 0 => none
  | stop + 1 =>
    if start ≤ stop ∧ stop < t.length ∧ (t.get? stop).any p then some stop
    else lastIdxSat t p start stop

/-- Chunk boundary as the spec describes it: propose `start + 800`; if that
falls before the text end, cut after the last sentence terminator when it
lies strictly past `start` + one third of the chunk size, else at the last
space when it lies past the same point, else exactly at `start + 800`.
"Past one third" is expressed exactly: `i > start + 800/3` iff
`3*i > 3*start + 800`. -/
def specBoundary (t : List Char) (start : Nat) : Nat :=
  let e := start + 800
  if e < t.length then
    match lastIdxSat t isSentenceTerminator start e with
    | some i =>
      if 3 * i > 3 * start + 800 then i + 1
      else
        match lastIdxSat t (fun c => c = ' ') start e with
        | some j => if 3 * j > 3 * start + 800 then j else e
        | none => e
    | none =>
      match lastIdxSat t (fun c => c = ' ') start e with
      | some j => if 3 * j > 3 * start + 800 then j else e
      | none => e
  else e

/-- The generic chunker as the claim describes it: same traversal
structure as the source, but each boundary is computed by `specBoundary`,
the trimmed substring is emitted only when longer than 20 characters, and
`start` advances to `end - 100`. -/
def specChunkLoop (t : List Char) : Nat → Nat → List (List Char) → List (List Char)
  | 0, _, acc => acc
  | fuel + 1, start, acc =>
    if start < t.length then
      let e := specBoundary t start
      let chunk := pyStrip ((t.drop start).take (e - start))
      let acc' := if chunk.length > 20 then acc ++ [chunk] else acc
      let start' := e - 100
      if start' ≥ t.length then acc'
      else if acc'.length > 100 then acc'
      else specChunkLoop t fuel start' acc'
    else acc

/-- The spec-described generic chunking of a document. -/
def specGenericChunks (t : List Char) : List (List Char) :=
  if t = [] ∨ (pyStrip t).length < 50 then []
  else
    let c := pyStrip t
    specChunkLoop c (c.length + 1) 0 []

/-! ## Equivalence of the source boundary search with the spec wording -/

/-- View an optional index as Python's `rfind` result (`-1` for "absent"). -/
def optToInt : Option Nat → Int
  | none => -1
  | some i => (i : Int)

/-- Lines 172-176 of `_process_document_chunks`: truncate the produced
chunk list to `max_chunks_per_document` before embedding. -/
def limitChunks (chunks : List (List Char)) : List (List Char) :=
  if chunks.length > maxChunksPerDocument then chunks.take maxChunksPerDocument else chunks

/-! ## OpenAIService.generate_embedding (src/app/services/openai_service.py) -/

/-- Source `OpenAIService.generate_embedding`: rejects text stripping to fewer
than 3 characters up front (returns the empty embedding without calling
the provider); otherwise strips, truncates to 8000 characters, and calls
the provider once.  The provider is a parameter; `none` models a provider
exception, which the source catches, returning the empty embedding.  The
second component of the result records the provider calls made (the exact
text sent). -/
def generateEmbedding (provider : List Char → Option (List ℚ)) (text : List Char) :
    List ℚ × List (List Char) :=
  if text = [] ∨ (pyStrip text).length < 3 then ([], [])
  else
    let clean := pyStrip text
    let clean2 := if clean.length > 8000 then clean.take 8000 else clean
    match provider clean2 with
    | some emb => (emb, [clean2])
    | none => ([], [clean2])

/-! ## Search engine model (DocumentService.search_documents) -/

/-- Source `DocumentStatus` from src/app/models/document.py. -/
inductive DocStatus
  | processing
  | ready
  | error
deriving DecidableEq

/-- Source `DocumentType` from src/app/models/document.py. -/
inductive DocType
  | pdf
  | docx
  | txt
  | xlsx
  | xls
deriving DecidableEq

/-- A stored document record, with the fields the search pipeline reads. -/
structure DocRec where
  id : Nat
  workspaceId : Nat
  status : DocStatus
  documentType : DocType
  tags : List (List Char)
deriving DecidableEq

/-- A stored chunk record (`document_chunks` collection). -/
structure ChunkRec where
  id : Nat
  documentId : Nat
  workspaceId : Nat
  content : List Char
  chunkIndex : Nat
  embedding : Option (List ℚ)
deriving DecidableEq

/-- The two collections the search reads. -/
structure SearchDB where
  documents : List DocRec
  chunks : List ChunkRec
deriving DecidableEq

/-- Source `DocumentSearch` request: workspace scope, result limit, similarity
threshold, optional type and tag filters. -/
structure SearchRequest where
  workspaceId : Nat
  limit : Nat
  similarityThreshold : ℚ
  documentTypes : Option (List DocType)
  tags : Option (List (List Char))
deriving DecidableEq

/-- A candidate chunk with its joined document and similarity score. -/
structure ScoredChunk where
  chunk : ChunkRec
  doc : DocRec
  sim : ℚ
deriving DecidableEq

/-- Source `SearchResult` from src/app/models/document.py. -/
structure SearchResult where
  document : DocRec
  chunks : List ChunkRec
  similarityScore : ℚ
  relevanceScore : ℚ
deriving DecidableEq

/-- The aggregation pipeline of `search_documents` (lines 364-403):
workspace-scoped chunks with an embedding present, joined to their owning
document (`$lookup`/`$unwind`), restricted to documents with status
`ready`, then optionally filtered by document type and by tags (`$in`:
some document tag is among the requested ones). -/
def pipelineCandidates (db : SearchDB) (req : SearchRequest) : List (ChunkRec × DocRec) :=
  db.chunks.filterMap (fun c =>
    if c.workspaceId = req.workspaceId ∧ c.embedding ≠ none then
      match db.documents.find? (fun d => d.id = c.documentId) with
      | some d =>
        if d.status = DocStatus.ready
            ∧ req.documentTypes.all (fun ts => d.documentType ∈ ts)
            ∧ req.tags.all (fun ts => d.tags.any (fun tg => decide (tg ∈ ts)))
        then some (c, d) else none
      | none => none
    else none)

/-- Lines 406-422: score each candidate chunk (with a non-empty stored
embedding) by similarity against the query embedding — a failed
similarity computation (`none`) skips the chunk — and keep those at or
above the request threshold. -/
def scoredChunks (cos : List ℚ → List ℚ → Option ℚ) (db : SearchDB) (q : List ℚ)
    (req : SearchRequest) : List ScoredChunk :=
  (pipelineCandidates db req).filterMap (fun cd =>
    match cd.1.embedding with
    | some emb =>
      if emb = [] then none
      else
        match cos q emb with
        | some sim =>
          if sim ≥ req.similarityThreshold then some ⟨cd.1, cd.2, sim⟩ else none
        | none => none
    | none => none)

/-- Stable insertion of `x` before the first element with a strictly
smaller key.  `sortByDesc` below is therefore the stable descending sort,
which is extensionally what Python's `list.sort(key=..., reverse=True)`
computes. -/
def insertDesc {α : Type} (key : α → ℚ) (x : α) : List α → List α
  | [] => [x]
  | y :: ys => if key x ≥ key y then x :: y :: ys else y :: insertDesc key x ys

/-- Stable descending sort by a rational key. -/
def sortByDesc {α : Type} (key : α → ℚ) : List α → List α
  | [] => []
  | x :: xs => insertDesc key x (sortByDesc key xs)

/-- The globally sorted surviving chunks truncated to the top
`limit * 5` (line 431: `chunks[:search_request.limit * 5]`). -/
def topSurvivors (cos : List ℚ → List ℚ → Option ℚ) (db : SearchDB) (q : List ℚ)
    (req : SearchRequest) : List ScoredChunk :=
  (sortByDesc (fun s => s.sim) (scoredChunks cos db q req)).take (req.limit * 5)

/-- First-occurrence order of document ids in a scored chunk list
(Python dicts preserve insertion order). -/
def groupKeys (l : List ScoredChunk) : List Nat :=
  l.foldl (fun ks s => if s.doc.id ∈ ks then ks else ks ++ [s.doc.id]) []

/-- Source `max_similarity` of a group: running maximum starting from 0, as the
source initialises it. -/
def maxSim (g : List ScoredChunk) : ℚ :=
  g.foldl (fun m s => max m s.sim) 0

/-- Source `total_similarity` of a group. -/
def totalSim (g : List ScoredChunk) : ℚ :=
  g.foldl (fun m s => m + s.sim) 0

/-- The chunks of document `did` among the top survivors — exactly the
chunk list the source accumulates for that document's dict entry. -/
def docGroup (cos : List ℚ → List ℚ → Option ℚ) (db : SearchDB) (q : List ℚ)
    (req : SearchRequest) (did : Nat) : List ScoredChunk :=
  (topSurvivors cos db q req).filter (fun s => s.doc.id = did)

/-- Source `DocumentService.search_documents`: embed the query (empty embedding
returns no results), score and threshold the workspace's candidate
chunks, sort them by similarity, group the top `limit * 5` by owning
document, build one `SearchResult` per document with
`relevance = max * 0.6 + avg * 0.4` and up to 5 chunks, then sort by
relevance and keep the top `limit`.  The similarity function is a
parameter (the source calls sklearn's `cosine_similarity`). -/
def buildResult (top : List ScoredChunk) (did : Nat) : Option SearchResult :=
  match (top.filter (fun s => s.doc.id = did)).head? with
  | some s0 =>
    some { document := s0.doc,
           chunks := ((top.filter (fun s => s.doc.id = did)).map (fun s => s.chunk)).take 5,
           similarityScore := maxSim (top.filter (fun s => s.doc.id = did)),
           relevanceScore := maxSim (top.filter (fun s => s.doc.id = did)) * (6/10 : ℚ)
             + (totalSim (top.filter (fun s => s.doc.id = did))
                 / ((top.filter (fun s => s.doc.id = did)).length : ℚ)) * (4/10 : ℚ) }
  | none => none

def searchResultsRaw (cos : List ℚ → List ℚ → Option ℚ) (db : SearchDB) (q : List ℚ)
    (req : SearchRequest) : List SearchResult :=
  (groupKeys (topSurvivors cos db q req)).filterMap (buildResult (topSurvivors cos db q req))

def searchDocuments (cos : List ℚ → List ℚ → Option ℚ) (db : SearchDB) (q : List ℚ)
    (req : SearchRequest) : List SearchResult :=
  if q = [] then []
  else (sortByDesc (fun r => r.relevanceScore) (searchResultsRaw cos db q req)).take req.limit

/-- All surviving chunks of document `did` over the whole scored list —
the population the spec says the mean ranges over. -/
def docSurvivors (cos : List ℚ → List ℚ → Option ℚ) (db : SearchDB) (q : List ℚ)
    (req : SearchRequest) (did : Nat) : List ScoredChunk :=
  (scoredChunks cos db q req).filter (fun s => s.doc.id = did)

/-! ## Concrete search instance: one ready document with six surviving chunks -/

/-- A similarity function for the concrete instance: the head entry of
the stored embedding. -/
def c3cos : List ℚ → List ℚ → Option ℚ := fun _ v => v.head?

def c3doc : DocRec := ⟨1, 1, DocStatus.ready, DocType.txt, []⟩

def c3chunk (i : Nat) (x : ℚ) : ChunkRec := ⟨i, 1, 1, [], i, some [x]⟩

def c3db : SearchDB :=
  ⟨[c3doc],
   [c3chunk 1 1, c3chunk 2 (9/10), c3chunk 3 (9/10), c3chunk 4 (9/10),
    c3chunk 5 (9/10), c3chunk 6 (3/10)]⟩

def c3q : List ℚ := [1]

def c3req : SearchRequest := ⟨1, 1, 0, none, none⟩

/-- The one result the search returns on the concrete instance: its
relevance blends the max (1) with the mean over only the top 5 surviving
chunks ((1 + 4 * 9/10)/5 = 23/25), giving 121/125. -/
def c3result : SearchResult :=
  ⟨c3doc,
   [c3chunk 1 1, c3chunk 2 (9/10), c3chunk 3 (9/10), c3chunk 4 (9/10), c3chunk 5 (9/10)],
   1, 121/125⟩

/-- C3 exactly as the claim states it: every returned document's
relevance score is `0.6 * max + 0.4 * mean` over ALL of that document's
surviving chunks, and its similarity score is that max. -/
def relevanceClaimStatement : Prop :=
  ∀ (cos : List ℚ → List ℚ → Option ℚ) (db : SearchDB) (q : List ℚ)
    (req : SearchRequest) (r : SearchResult), r ∈ searchDocuments cos db q req →
    r.relevanceScore = maxSim (docSurvivors cos db q req r.document.id) * (6/10 : ℚ)
        + (totalSim (docSurvivors cos db q req r.document.id)
            / ((docSurvivors cos db q req r.document.id).length : ℚ)) * (4/10 : ℚ)
    ∧ r.similarityScore = maxSim (docSurvivors cos db q req r.document.id)

/-! ## ExcelProcessor.create_excel_chunks (src/app/services/excel_processor.py) -/

/-- The worksheet marker the extractor emits and the chunker splits on. -/
def wsMarker : List Char := ("=== WORKSHEET").data

/-- The context-line tag `f"WORKSHEET {header}"` (with its trailing space). -/
def wsInfoTag : List Char := ("WORKSHEET ").data

/-- The header tag searched for in chunk content. -/
def headersTag : List Char := ("Headers:").data

/-- The row-line tag counted in chunk metadata. -/
def rowTag : List Char := ("Row").data

/-- The `chunk_type` value of tabular chunks. -/
def excelDataTag : List Char := ("excel_data").data

/-- Python `str.split(ch)` on a single character, keeping empty pieces. -/
def splitOnChar (c : Char) : List Char → List (List Char)
  | [] => [[]]
  | ch :: rest =>
    if ch = c then [] :: splitOnChar c rest
    else
      match splitOnChar c rest with
      | [] => [[ch]]
      | l :: ls => (ch :: l) :: ls

/-- First index at which `sep` occurs as a substring of `s`. -/
def findSub (s sep : List Char) : Option Nat :=
  (List.range (s.length + 1)).find? (fun i => leadsWith sep (s.drop i))

/-- Python `sep in s`. -/
def containsSub (s sep : List Char) : Bool := (findSub s sep).isSome

/-- Python `str.split(sep)` for a non-empty separator, with fuel (each
split step consumes at least one character, so `s.length + 1` is enough). -/
def splitOnSubAux (sep : List Char) : Nat → List Char → List (List Char)
  | 0, s => [s]
  | fuel + 1, s =>
    match findSub s sep with
    | none => [s]
    | some i => s.take i :: splitOnSubAux sep fuel (s.drop (i + sep.length))

/-- Python `s.split(sep)`. -/
def splitOnSub (sep s : List Char) : List (List Char) :=
  splitOnSubAux sep (s.length + 1) s

/-- Python `"\n".join(lines)`. -/
def joinLines : List (List Char) → List Char
  | [] => []
  | [l] => l
  | l :: l2 :: ls => l ++ '\n' :: joinLines (l2 :: ls)

/-- The metadata the source records per tabular chunk. -/
structure ExcelChunkMeta where
  sourceFile : List Char
  worksheetSection : Nat
  chunkType : List Char
  hasHeaders : Bool
  rowCount : Nat
  worksheetInfo : List Char
deriving DecidableEq

/-- A tabular chunk: content plus metadata. -/
structure ExcelChunk where
  content : List Char
  metadata : ExcelChunkMeta
deriving DecidableEq

/-- Flushing the accumulated lines into a chunk (lines 361-375 and
385-399 of excel_processor.py): the chunk is appended when its content
does not strip to empty, with metadata recording the source file, the
worksheet-section index, chunk type `excel_data`, whether the content
contains `Headers:`, and the count of accumulated lines starting with
`Row`. -/
def flushChunk (filename : List Char) (sectionIdx : Nat) (wsInfo : List Char)
    (curLines : List (List Char)) (acc : List ExcelChunk) : List ExcelChunk :=
  if pyStrip (joinLines curLines) ≠ [] then
    acc ++ [⟨joinLines curLines,
      ⟨filename, sectionIdx, excelDataTag, containsSub (joinLines curLines) headersTag,
       (curLines.filter (fun l => leadsWith rowTag l)).length, wsInfo⟩⟩]
  else acc

/-- One line of the per-worksheet accumulation loop (lines 346-384):
skip blank lines; seed an empty accumulator with the worksheet context
line; flush when adding the line would exceed 800 characters, reseeding
with the context line; then append the line. -/
def seedLines (wsInfo : List Char) (cur0 : List (List Char)) : List (List Char) :=
  if cur0 = [] ∧ wsInfo ≠ [] then [wsInfo] else cur0

def seedSize (wsInfo : List Char) (cur0 : List (List Char)) (size0 : Nat) : Nat :=
  if cur0 = [] ∧ wsInfo ≠ [] then wsInfo.length else size0

def sectionStep (filename : List Char) (sectionIdx : Nat) (wsInfo : List Char) :
    List ExcelChunk × List (List Char) × Nat → List Char →
      List ExcelChunk × List (List Char) × Nat
  | (acc, cur0, size0), rawLine =>
    if pyStrip rawLine = [] then (acc, cur0, size0)
    else
      if seedSize wsInfo cur0 size0 + (pyStrip rawLine).length > 800
          ∧ seedLines wsInfo cur0 ≠ [] then
        (flushChunk filename sectionIdx wsInfo (seedLines wsInfo cur0) acc,
         (if wsInfo ≠ [] then [wsInfo] else []) ++ [pyStrip rawLine],
         (if wsInfo ≠ [] then wsInfo.length else 0) + (pyStrip rawLine).length)
      else (acc, seedLines wsInfo cur0 ++ [pyStrip rawLine],
            seedSize wsInfo cur0 size0 + (pyStrip rawLine).length)

/-- The worksheet context line `f"WORKSHEET {header}"` for a section
(empty for the first split section). -/
def sectionWsInfo (sectionIdx : Nat) (sectionText : List Char) : List Char :=
  if sectionIdx > 0 then
    wsInfoTag ++ ((splitOnChar '\n' (pyStrip sectionText)).head?.getD [])
  else []

/-- Lines the accumulation loop iterates over: all lines of the section,
minus the header line for sections after the first. -/
def sectionContentLines (sectionIdx : Nat) (sectionText : List Char) : List (List Char) :=
  if sectionIdx > 0 then (splitOnChar '\n' (pyStrip sectionText)).drop 1
  else splitOnChar '\n' (pyStrip sectionText)

/-- The final flush (lines 386-399): emit the trailing accumulated chunk. -/
def sectionFlushFinal (filename : List Char) (sectionIdx : Nat) (wsInfo : List Char)
    (st : List ExcelChunk × List (List Char) × Nat) : List ExcelChunk :=
  if st.2.1 ≠ [] then flushChunk filename sectionIdx wsInfo st.2.1 st.1 else st.1

/-- Lines 322-399: process one worksheet section: skip blank sections,
split the stripped section into lines, build the context line
`"WORKSHEET " ++ header` for sections after the first, accumulate the
remaining lines into chunks, and flush the trailing chunk. -/
def processSection (filename : List Char) (sectionIdx : Nat) (sectionText : List Char)
    (acc : List ExcelChunk) : List ExcelChunk :=
  if pyStrip sectionText = [] then acc
  else if splitOnChar '\n' (pyStrip sectionText) = [] then acc
  else
    sectionFlushFinal filename sectionIdx (sectionWsInfo sectionIdx sectionText)
      ((sectionContentLines sectionIdx sectionText).foldl
        (sectionStep filename sectionIdx (sectionWsInfo sectionIdx sectionText))
        (acc, [], 0))

/-- Source `ExcelProcessor.create_excel_chunks`: split the extracted text on
worksheet markers and re-chunk each worksheet's lines at 800 characters,
repeating the worksheet context line at the start of every chunk. -/
def createExcelChunks (content filename : List Char) : List ExcelChunk :=
  (splitOnSub wsMarker content).enum.foldl
    (fun acc p => processSection filename p.1 p.2 acc) []

/-- The per-chunk property claimed by C8, relative to worksheet-section
number `i` with section text `s`. -/
def excelChunkProp (filename : List Char) (i : Nat) (s : List Char) (ch : ExcelChunk) : Prop :=
  ch.metadata.chunkType = excelDataTag ∧
  ch.metadata.sourceFile = filename ∧
  ch.metadata.hasHeaders = containsSub ch.content headersTag ∧
  ch.metadata.rowCount
    = ((splitOnChar '\n' ch.content).filter (fun l => leadsWith rowTag l)).length ∧
  (splitOnChar '\n' ch.content).head? = some ch.metadata.worksheetInfo ∧
  ch.metadata.worksheetSection = i ∧
  ch.metadata.worksheetInfo = wsInfoTag ++ ((splitOnChar '\n' (pyStrip s)).head?.getD [])

/-- The state invariant of the per-worksheet accumulation loop: all
chunks emitted so far are from `acc₀` or satisfy the claimed property,
the current lines begin with the context line (or are empty), and no
accumulated line contains a newline. -/
def sectionInv (filename : List Char) (i : Nat) (s : List Char) (wsInfo : List Char)
    (acc₀ : List ExcelChunk) (st : List ExcelChunk × List (List Char) × Nat) : Prop :=
  (∀ ch ∈ st.1, ch ∈ acc₀ ∨ excelChunkProp filename i s ch) ∧
  (st.2.1 = [] ∨ st.2.1.head? = some wsInfo) ∧
  (∀ l ∈ st.2.1, '\n' ∉ l)

def c8content : List Char := ("=== WORKSHEET 1: S ===\nHeaders: a\nRow 1: x").data

def c8file : List Char := ("t.xlsx").data

def c8chunk : ExcelChunk :=
  ⟨("WORKSHEET 1: S ===\nHeaders: a\nRow 1: x").data,
   ⟨("t.xlsx").data, 1, excelDataTag, true, 1, ("WORKSHEET 1: S ===").data⟩⟩

/-! ## Document ingestion pipeline (DocumentService.upload_document,
DocumentService._process_document_chunks) -/

/-- Source `settings.max_file_size` (10 MiB default). -/
def maxFileSize : Nat := 10485760

/-- A stored document record of the ingestion model. -/
structure StoredDoc where
  id : Nat
  workspaceId : Nat
  fileName : List Char
  documentType : DocType
  content : List Char
  status : DocStatus
  chunkCount : Nat
deriving DecidableEq

/-- A persisted chunk record of the ingestion model. -/
structure StoredChunk where
  documentId : Nat
  workspaceId : Nat
  content : List Char
  chunkIndex : Nat
  embedding : List ℚ
deriving DecidableEq

/-- The two collections the ingestion writes. -/
structure PipelineDB where
  docs : List StoredDoc
  chunkRecs : List StoredChunk
deriving DecidableEq

/-- The failures `upload_document` can raise: the four validation 400s,
the content-length 400, and the blanket 500 re-raised by its exception
handler. -/
inductive UploadError
  | noFile
  | noWorkspace
  | invalidFileType
  | fileTooLarge
  | contentTooShort
  | uploadFailed
deriving DecidableEq

/-- Python `str.lower()`. -/
def pyLower (s : List Char) : List Char := s.map Char.toLower

/-- Python `s.endswith(t)`. -/
def endsWithCh (s t : List Char) : Bool := leadsWith t.reverse s.reverse

/-- Source `DocumentService._is_valid_file_type`. -/
def isValidFileType (filename : List Char) : Bool :=
  endsWithCh (pyLower filename) ((".pdf").data)
  || endsWithCh (pyLower filename) ((".docx").data)
  || endsWithCh (pyLower filename) ((".txt").data)
  || endsWithCh (pyLower filename) ((".xlsx").data)
  || endsWithCh (pyLower filename) ((".xls").data)

/-- Source `DocumentService._get_document_type`. -/
def getDocumentType (filename : List Char) : DocType :=
  if endsWithCh (pyLower filename) ((".pdf").data) then DocType.pdf
  else if endsWithCh (pyLower filename) ((".docx").data) then DocType.docx
  else if endsWithCh (pyLower filename) ((".txt").data) then DocType.txt
  else if endsWithCh (pyLower filename) ((".xlsx").data) then DocType.xlsx
  else if endsWithCh (pyLower filename) ((".xls").data) then DocType.xls
  else DocType.txt

/-- Mongo `update_one` setting `chunk_count` on the matching document. -/
def setChunkCount (docs : List StoredDoc) (docId n : Nat) : List StoredDoc :=
  docs.map (fun d => if d.id = docId then { d with chunkCount := n } else d)

/-- Mongo `update_one` setting `status` on the matching document. -/
def setStatus (docs : List StoredDoc) (docId : Nat) (st : DocStatus) : List StoredDoc :=
  docs.map (fun d => if d.id = docId then { d with status := st } else d)

/-- Chunker selection by document type (lines 160-168): the tabular
chunker for xlsx/xls, the generic splitter otherwise. -/
def chunksForDoc (doc : StoredDoc) (content : List Char) : List (List Char) :=
  if doc.documentType = DocType.xlsx ∨ doc.documentType = DocType.xls
  then (createExcelChunks content doc.fileName).map (fun c => c.content)
  else splitIntoChunks content

/-- The chunks the pipeline produces for a document uploaded under
`filename` (as `upload_document` stores the type derived from the name). -/
def producedChunks (filename content : List Char) : List (List Char) :=
  if getDocumentType filename = DocType.xlsx ∨ getDocumentType filename = DocType.xls
  then (createExcelChunks content filename).map (fun c => c.content)
  else splitIntoChunks content

/-- Lines 178-204: embed each chunk of the (truncated) chunk list in
order; a chunk stripping to empty is skipped, and a chunk whose embedding
comes back empty (the embedding client's failure value) is skipped; the
rest become chunk records carrying their enumeration index. -/
def successfulChunkDocs (embed : List Char → List ℚ) (docId ws : Nat)
    (chunks : List (List Char)) : List StoredChunk :=
  (limitChunks chunks).enum.filterMap (fun p =>
    if pyStrip p.2 ≠ [] then
      if embed p.2 ≠ [] then some ⟨docId, ws, p.2, p.1, embed p.2⟩ else none
    else none)

/-- Source `DocumentService._process_document_chunks`: look the document up,
chunk its content by type, cap the chunk list, embed and persist the
successful chunks, and set the document's `chunk_count` to their number.
Its internal exceptions are caught and only logged, so a missing document
leaves the state unchanged. -/
def processDocumentChunks (embed : List Char → List ℚ) (db : PipelineDB)
    (docId : Nat) (content : List Char) (ws : Nat) : PipelineDB :=
  match db.docs.find? (fun d => d.id = docId) with
  | none => db
  | some doc =>
    { docs := setChunkCount db.docs docId
        (successfulChunkDocs embed docId ws (chunksForDoc doc content)).length,
      chunkRecs := db.chunkRecs ++ successfulChunkDocs embed docId ws (chunksForDoc doc content) }

/-- The document record `upload_document` inserts (status `processing`,
`chunk_count` initialised to 0). -/
def insertedDoc (newId wsId : Nat) (filename content : List Char) : StoredDoc :=
  { id := newId, workspaceId := wsId, fileName := filename,
    documentType := getDocumentType filename, content := content,
    status := DocStatus.processing, chunkCount := 0 }

/-- The body of `upload_document` once the file is saved and its text
extracted: the four validations, the content-length check (before any
persistence), the document insert in `processing` state, chunk
processing, the `ready` status update, and the returned document object
(built from the pre-processing dict, so its `chunk_count` field is the
initial 0 even though the stored record was updated).  The last component
is the id of the document created, if any — what the exception handler
inspects. -/
def uploadBody (embed : List Char → List ℚ) (db : PipelineDB) (newId : Nat)
    (filename : List Char) (fileSize : Nat) (workspace : List Char) (wsId : Nat)
    (content : List Char) :
    Except UploadError StoredDoc × PipelineDB × Option Nat :=
  if filename = [] then (Except.error UploadError.noFile, db, none)
  else if workspace = [] ∨ pyStrip workspace = [] then
    (Except.error UploadError.noWorkspace, db, none)
  else if ¬ isValidFileType filename then
    (Except.error UploadError.invalidFileType, db, none)
  else if fileSize ≠ 0 ∧ fileSize > maxFileSize then
    (Except.error UploadError.fileTooLarge, db, none)
  else if content = [] ∨ (pyStrip content).length < 10 then
    (Except.error UploadError.contentTooShort, db, none)
  else
    (Except.ok { insertedDoc newId wsId filename content with status := DocStatus.ready },
     { docs :=
         setStatus
           (processDocumentChunks embed
             { db with docs := db.docs ++ [insertedDoc newId wsId filename content] }
             newId content wsId).docs
           newId DocStatus.ready,
       chunkRecs :=
         (processDocumentChunks embed
           { db with docs := db.docs ++ [insertedDoc newId wsId filename content] }
           newId content wsId).chunkRecs },
     some newId)

/-- Source `upload_document`: the blanket `except Exception` handler catches any
raised failure — including the typed 400s — marks the document as `error`
when one was already created, and raises the generic 500 failure. -/
def uploadDocument (embed : List Char → List ℚ) (db : PipelineDB) (newId : Nat)
    (filename : List Char) (fileSize : Nat) (workspace : List Char) (wsId : Nat)
    (content : List Char) : Except UploadError StoredDoc × PipelineDB :=
  match uploadBody embed db newId filename fileSize workspace wsId content with
  | (Except.ok d, db2, _) => (Except.ok d, db2)
  | (Except.error _, db2, some docId) =>
    (Except.error UploadError.uploadFailed,
     { db2 with docs := setStatus db2.docs docId DocStatus.error })
  | (Except.error _, db2, none) => (Except.error UploadError.uploadFailed, db2)

def c5embed : List Char → List ℚ := fun c => if c.length = 721 then [] else [mkRat 1 1]

def c5content : List Char := List.replicate 721 'a'

def c5file : List Char := ("a.txt").data

def c5db : PipelineDB := ⟨[], []⟩

theorem lastIdxSat_lt (t : List Char) (p : Char → Bool) (start : Nat) :
    ∀ stop, optToInt (lastIdxSat t p start stop) < (stop : Int) := by
  intro stop
  induction stop with
  | zero => show (-1 : Int) < 0; norm_num
  | succ k ih =>
    show optToInt (if start ≤ k ∧ k < t.length ∧ (t.get? k).any p then some k
                   else lastIdxSat t p start k) < ((k + 1 : Nat) : Int)
    by_cases h : start ≤ k ∧ k < t.length ∧ (t.get? k).any p
    · rw [if_pos h]; show (k : Int) < ((k + 1 : Nat) : Int); push_cast; omega
    · rw [if_neg h]
      have := ih
      push_cast
      push_cast at this
      omega

theorem pyRfind_eq_lastIdxSat (s : List Char) (c : Char) (start : Nat) :
    ∀ stop, pyRfind s c start stop = optToInt (lastIdxSat s (fun x => x = c) start stop) := by
  intro stop
  induction stop with
  | zero => rfl
  | succ k ih =>
    show (if start ≤ k ∧ k < s.length ∧ s.get? k = some c then (k : Int)
          else pyRfind s c start k)
       = optToInt (if start ≤ k ∧ k < s.length ∧ (s.get? k).any (fun x => x = c) then some k
                   else lastIdxSat s (fun x => x = c) start k)
    have hiff : (s.get? k = some c) ↔ ((s.get? k).any (fun x => x = c) = true) := by
      cases hg : s.get? k with
      | none => simp
      | some a => simp [Option.any]
    by_cases h : start ≤ k ∧ k < s.length ∧ s.get? k = some c
    · rw [if_pos h, if_pos ⟨h.1, h.2.1, hiff.mp h.2.2⟩]; rfl
    · rw [if_neg h, if_neg (fun hc => h ⟨hc.1, hc.2.1, hiff.mpr hc.2.2⟩), ih]

theorem max_optToInt_lastIdxSat (t : List Char) (p q : Char → Bool) (start : Nat) :
    ∀ stop, max (optToInt (lastIdxSat t p start stop)) (optToInt (lastIdxSat t q start stop))
      = optToInt (lastIdxSat t (fun c => p c || q c) start stop) := by
  intro stop
  induction stop with
  | zero => rfl
  | succ k ih =>
    have hlp := lastIdxSat_lt t p start k
    have hlq := lastIdxSat_lt t q start k
    show max (optToInt (if start ≤ k ∧ k < t.length ∧ (t.get? k).any p then some k
                        else lastIdxSat t p start k))
             (optToInt (if start ≤ k ∧ k < t.length ∧ (t.get? k).any q then some k
                        else lastIdxSat t q start k))
       = optToInt (if start ≤ k ∧ k < t.length ∧ (t.get? k).any (fun c => p c || q c) then some k
                   else lastIdxSat t (fun c => p c || q c) start k)
    by_cases hr : start ≤ k ∧ k < t.length
    · cases hg : t.get? k with
      | none =>
        rw [if_neg (by simp), if_neg (by simp), if_neg (by simp)]
        exact ih
      | some a =>
        by_cases hp : p a = true
        · have c1 : start ≤ k ∧ k < t.length ∧ Option.any p (some a) = true :=
            ⟨hr.1, hr.2, hp⟩
          have c3 : start ≤ k ∧ k < t.length ∧
              Option.any (fun c => p c || q c) (some a) = true :=
            ⟨hr.1, hr.2, by simp [hp]⟩
          rw [if_pos c1, if_pos c3]
          by_cases hq : q a = true
          · have c2 : start ≤ k ∧ k < t.length ∧ Option.any q (some a) = true :=
              ⟨hr.1, hr.2, hq⟩
            rw [if_pos c2]
            simp
          · have c2 : ¬(start ≤ k ∧ k < t.length ∧ Option.any q (some a) = true) :=
              fun hc => hq hc.2.2
            rw [if_neg c2]
            show max ((k : Int)) (optToInt (lastIdxSat t q start k)) = (k : Int)
            exact max_eq_left (le_of_lt hlq)
        · have c1 : ¬(start ≤ k ∧ k < t.length ∧ Option.any p (some a) = true) :=
            fun hc => hp hc.2.2
          rw [if_neg c1]
          by_cases hq : q a = true
          · have c2 : start ≤ k ∧ k < t.length ∧ Option.any q (some a) = true :=
              ⟨hr.1, hr.2, hq⟩
            have c3 : start ≤ k ∧ k < t.length ∧
                Option.any (fun c => p c || q c) (some a) = true :=
              ⟨hr.1, hr.2, by simp [hq]⟩
            rw [if_pos c2, if_pos c3]
            show max (optToInt (lastIdxSat t p start k)) ((k : Int)) = (k : Int)
            exact max_eq_right (le_of_lt hlp)
          · have c2 : ¬(start ≤ k ∧ k < t.length ∧ Option.any q (some a) = true) :=
              fun hc => hq hc.2.2
            have c3 : ¬(start ≤ k ∧ k < t.length ∧
                Option.any (fun c => p c || q c) (some a) = true) := by
              intro hc
              have := hc.2.2
              simp [hp, hq] at this
            rw [if_neg c2, if_neg c3]
            exact ih
    · rw [if_neg (fun hc => hr ⟨hc.1, hc.2.1⟩), if_neg (fun hc => hr ⟨hc.1, hc.2.1⟩),
          if_neg (fun hc => hr ⟨hc.1, hc.2.1⟩)]
      exact ih

theorem sentenceEnd_eq_lastIdxSat (t : List Char) (start e : Nat) :
    sentenceEnd t start e = optToInt (lastIdxSat t isSentenceTerminator start e) := by
  unfold sentenceEnd
  rw [pyRfind_eq_lastIdxSat, pyRfind_eq_lastIdxSat, pyRfind_eq_lastIdxSat,
      max_optToInt_lastIdxSat, max_optToInt_lastIdxSat]
  have hpred : (fun c => ((fun x => decide (x = '.')) c || (fun x => decide (x = '!')) c)
      || (fun x => decide (x = '?')) c) = isSentenceTerminator := by
    funext c
    simp [isSentenceTerminator, Bool.or_assoc]
  rw [hpred]

/-- The spec's "past start + one-third of the chunk size" test agrees with
the source's integer test `idx > start + chunk_size // 3`. -/
theorem third_test_agree (i start : Nat) :
    ((i : Int) > (start : Int) + ((chunkSize / 3 : Nat) : Int)) ↔ 3 * i > 3 * start + 800 := by
  simp only [chunkSize]
  norm_num
  omega

theorem spaceCut_eq (t : List Char) (start e0 e : Nat) :
    (if pyRfind t ' ' start e0 > (start : Int) + ((chunkSize / 3 : Nat) : Int)
       then (pyRfind t ' ' start e0).toNat else e)
    = (match lastIdxSat t (fun c => c = ' ') start e0 with
       | some j => if 3 * j > 3 * start + 800 then j else e
       | none => e) := by
  rw [pyRfind_eq_lastIdxSat]
  cases hW : lastIdxSat t (fun x => x = ' ') start e0 with
  | none =>
    have hneg : ¬(optToInt none > (start : Int) + ((chunkSize / 3 : Nat) : Int)) := by
      simp only [optToInt, chunkSize]
      norm_num
      omega
    rw [if_neg hneg]
  | some j =>
    show (if (j : Int) > (start : Int) + ((chunkSize / 3 : Nat) : Int)
          then ((j : Int)).toNat else e)
       = (if 3 * j > 3 * start + 800 then j else e)
    by_cases hc : 3 * j > 3 * start + 800
    · rw [if_pos ((third_test_agree j start).mpr hc), if_pos hc, Int.toNat_natCast]
    · rw [if_neg (fun hx => hc ((third_test_agree j start).mp hx)), if_neg hc]

theorem computeEnd_eq_specBoundary (t : List Char) (start : Nat) :
    computeEnd t start = specBoundary t start := by
  show (if start + chunkSize < t.length then _ else start + chunkSize)
     = (if start + 800 < t.length then _ else start + 800)
  simp only [chunkSize]
  by_cases he : start + 800 < t.length
  · rw [if_pos he, if_pos he]
    rw [show (800 : Nat) = chunkSize from rfl, sentenceEnd_eq_lastIdxSat]
    cases hL : lastIdxSat t isSentenceTerminator start (start + chunkSize) with
    | none =>
      have hneg : ¬(optToInt none > (start : Int) + ((chunkSize / 3 : Nat) : Int)) := by
        simp only [optToInt, chunkSize]
        norm_num
        omega
      rw [if_neg hneg]
      exact spaceCut_eq t start (start + chunkSize) (start + chunkSize)
    | some i =>
      show (if (i : Int) > (start : Int) + ((chunkSize / 3 : Nat) : Int)
            then ((i : Int)).toNat + 1 else _)
         = (if 3 * i > 3 * start + 800 then i + 1 else _)
      by_cases hc : 3 * i > 3 * start + 800
      · rw [if_pos ((third_test_agree i start).mpr hc), if_pos hc, Int.toNat_natCast]
      · rw [if_neg (fun hx => hc ((third_test_agree i start).mp hx)), if_neg hc]
        exact spaceCut_eq t start (start + chunkSize) (start + chunkSize)
  · rw [if_neg he, if_neg he]

theorem splitLoop_eq_specChunkLoop (t : List Char) :
    ∀ fuel start acc, splitLoop t fuel start acc = specChunkLoop t fuel start acc := by
  intro fuel
  induction fuel with
  | zero => intro start acc; rfl
  | succ k ih =>
    intro start acc
    show (if start < t.length then
            let e := computeEnd t start
            let chunk := pyStrip ((t.drop start).take (e - start))
            let chunks' := if chunk.length > 20 then acc ++ [chunk] else acc
            let start' := e - chunkOverlap
            if start' ≥ t.length then chunks'
            else if chunks'.length > maxChunksPerDocument then chunks'
            else splitLoop t k start' chunks'
          else acc)
       = _
    simp only [computeEnd_eq_specBoundary, chunkOverlap, maxChunksPerDocument, ih]
    rfl

/-- Claim C1. For every non-empty input text, the generic chunker
`DocumentService._split_into_chunks` computes each chunk boundary exactly
as the spec describes: propose `end = start + 800`; when `end` falls
before the text's end, cut after the last sentence terminator in
`[start, end)` when it lies past `start` + one third of the chunk size,
otherwise at the last space in the window under the same test, otherwise
exactly at `start + 800`; emit the trimmed substring only when longer than
20 characters, and advance `start` to `end - 100`.  Stated as equality of
the source chunker with the chunker written from the spec's wording. -/
theorem generic_chunker_follows_spec_boundaries (t : List Char) (hne : t ≠ []) :
    splitIntoChunks t = specGenericChunks t := by
  unfold splitIntoChunks specGenericChunks
  by_cases hg : t = [] ∨ (pyStrip t).length < 50
  · rw [if_pos hg, if_pos hg]
  · rw [if_neg hg, if_neg hg, splitLoop_eq_specChunkLoop]

/-- Witness for C1 at a concrete non-empty text. -/
theorem generic_chunker_follows_spec_boundaries_witness :
    ('h' :: 'i' :: []) ≠ ([] : List Char) ∧
    splitIntoChunks ('h' :: 'i' :: []) = specGenericChunks ('h' :: 'i' :: []) :=
  ⟨by decide, generic_chunker_follows_spec_boundaries ('h' :: 'i' :: []) (by decide)⟩

/-! ## Behaviour of the generic chunker on uniform text (for C2) -/

theorem dropWhile_isPySpace_replicate (n : Nat) :
    List.dropWhile isPySpace (List.replicate n 'a') = List.replicate n 'a' := by
  cases n with
  | zero => rfl
  | succ m =>
    rw [List.replicate_succ, List.dropWhile_cons, if_neg (by decide),
        ← List.replicate_succ]

theorem pyStrip_replicate (n : Nat) :
    pyStrip (List.replicate n 'a') = List.replicate n 'a' := by
  unfold pyStrip
  rw [dropWhile_isPySpace_replicate, List.reverse_replicate,
      dropWhile_isPySpace_replicate, List.reverse_replicate]

theorem pyRfind_replicate (n : Nat) (c : Char) (hc : c ≠ 'a') (start : Nat) :
    ∀ stop, pyRfind (List.replicate n 'a') c start stop = -1 := by
  intro stop
  induction stop with
  | zero => rfl
  | succ k ih =>
    show (if start ≤ k ∧ k < (List.replicate n 'a').length ∧
            (List.replicate n 'a').get? k = some c then (k : Int)
          else pyRfind (List.replicate n 'a') c start k) = -1
    rw [if_neg, ih]
    intro h
    have hx : c = 'a' := by
      have hm : c ∈ List.replicate n 'a' := by
        rcases List.get?_eq_some.mp h.2.2 with ⟨hlt, hget⟩
        rw [← hget]
        exact List.get_mem _ _ hlt
      exact List.eq_of_mem_replicate hm
    exact hc hx

theorem computeEnd_replicate (n start : Nat) :
    computeEnd (List.replicate n 'a') start = start + chunkSize := by
  show (if start + chunkSize < (List.replicate n 'a').length then _ else start + chunkSize)
     = start + chunkSize
  by_cases he : start + chunkSize < (List.replicate n 'a').length
  · rw [if_pos he]
    have hse : sentenceEnd (List.replicate n 'a') start (start + chunkSize) = -1 := by
      unfold sentenceEnd
      rw [pyRfind_replicate n '.' (by decide) start, pyRfind_replicate n '!' (by decide) start,
          pyRfind_replicate n '?' (by decide) start]
      rfl
    rw [hse, if_neg (by omega), pyRfind_replicate n ' ' (by decide) start,
        if_neg (by omega)]
  · rw [if_neg he]

theorem splitLoop_replicate_70021 :
    ∀ fuel m acc, m ≤ 100 → acc.length = m → 101 - m < fuel →
      (splitLoop (List.replicate 70021 'a') fuel (700 * m) acc).length = 101 := by
  intro fuel
  induction fuel with
  | zero => intro m acc _ _ hf; omega
  | succ f ih =>
    intro m acc hm hlen _
    have hstart : 700 * m < (List.replicate 70021 'a').length := by
      rw [List.length_replicate]; omega
    show (if 700 * m < (List.replicate 70021 'a').length then
            let e := computeEnd (List.replicate 70021 'a') (700 * m)
            let chunk := pyStrip (((List.replicate 70021 'a').drop (700 * m)).take (e - 700 * m))
            let chunks' := if chunk.length > 20 then acc ++ [chunk] else acc
            let start' := e - chunkOverlap
            if start' ≥ (List.replicate 70021 'a').length then chunks'
            else if chunks'.length > maxChunksPerDocument then chunks'
            else splitLoop (List.replicate 70021 'a') f start' chunks'
          else acc).length = 101
    rw [if_pos hstart]
    simp only [computeEnd_replicate, List.drop_replicate, List.take_replicate,
      pyStrip_replicate, List.length_replicate, chunkSize, chunkOverlap,
      maxChunksPerDocument]
    have hchunklen : (700 * m + 800 - 700 * m) ⊓ (70021 - 700 * m) > 20 := by omega
    rw [if_pos hchunklen]
    by_cases hlast : 700 * m + 800 - 100 ≥ 70021
    · rw [if_pos hlast]
      have : m = 100 := by omega
      rw [List.length_append, hlen, this, List.length_singleton]
    · rw [if_neg hlast]
      have hm99 : m ≤ 99 := by omega
      have hnotover : ¬((acc ++ [List.replicate ((700 * m + 800 - 700 * m) ⊓ (70021 - 700 * m)) 'a']).length > 100) := by
        rw [List.length_append, hlen, List.length_singleton]
        omega
      rw [if_neg hnotover]
      have harith : 700 * m + 800 - 100 = 700 * (m + 1) := by ring_nf; omega
      rw [harith]
      apply ih (m + 1)
      · omega
      · rw [List.length_append, hlen, List.length_singleton]
      · omega

theorem splitLoop_length_le (t : List Char) :
    ∀ fuel start acc, acc.length ≤ 100 → (splitLoop t fuel start acc).length ≤ 101 := by
  intro fuel
  induction fuel with
  | zero => intro start acc h; show acc.length ≤ 101; omega
  | succ f ih =>
    intro start acc h
    have hC : (if (pyStrip ((t.drop start).take (computeEnd t start - start))).length > 20
               then acc ++ [pyStrip ((t.drop start).take (computeEnd t start - start))]
               else acc).length ≤ acc.length + 1 := by
      split_ifs
      · rw [List.length_append, List.length_singleton]
      · omega
    show (if start < t.length then
            let e := computeEnd t start
            let chunk := pyStrip ((t.drop start).take (e - start))
            let chunks' := if chunk.length > 20 then acc ++ [chunk] else acc
            let start' := e - chunkOverlap
            if start' ≥ t.length then chunks'
            else if chunks'.length > maxChunksPerDocument then chunks'
            else splitLoop t f start' chunks'
          else acc).length ≤ 101
    by_cases hs : start < t.length
    · rw [if_pos hs]
      show (if computeEnd t start - chunkOverlap ≥ t.length
              then (if (pyStrip ((t.drop start).take (computeEnd t start - start))).length > 20
                    then acc ++ [pyStrip ((t.drop start).take (computeEnd t start - start))]
                    else acc)
            else if (if (pyStrip ((t.drop start).take (computeEnd t start - start))).length > 20
                     then acc ++ [pyStrip ((t.drop start).take (computeEnd t start - start))]
                     else acc).length > maxChunksPerDocument
              then (if (pyStrip ((t.drop start).take (computeEnd t start - start))).length > 20
                    then acc ++ [pyStrip ((t.drop start).take (computeEnd t start - start))]
                    else acc)
            else splitLoop t f (computeEnd t start - chunkOverlap)
                   (if (pyStrip ((t.drop start).take (computeEnd t start - start))).length > 20
                    then acc ++ [pyStrip ((t.drop start).take (computeEnd t start - start))]
                    else acc)).length ≤ 101
      by_cases h1 : computeEnd t start - chunkOverlap ≥ t.length
      · rw [if_pos h1]; omega
      · rw [if_neg h1]
        by_cases h2 : (if (pyStrip ((t.drop start).take (computeEnd t start - start))).length > 20
                       then acc ++ [pyStrip ((t.drop start).take (computeEnd t start - start))]
                       else acc).length > maxChunksPerDocument
        · rw [if_pos h2]; omega
        · rw [if_neg h2]
          apply ih
          simp only [maxChunksPerDocument] at h2
          omega
    · rw [if_neg hs]; omega

/-- Claim C2 counterexample. On the text of 70021 copies of `'a'`,
`_split_into_chunks` returns 101 chunks: the loop only stops once the
count exceeds the configured maximum of 100, so the chunker itself
produces one chunk beyond the cap. -/
theorem chunk_cap_counterexample :
    (splitIntoChunks (List.replicate 70021 'a')).length = 101 ∧
    ¬((splitIntoChunks (List.replicate 70021 'a')).length ≤ maxChunksPerDocument) := by
  have h : (splitIntoChunks (List.replicate 70021 'a')).length = 101 := by
    unfold splitIntoChunks
    rw [if_neg]
    · simp only [pyStrip_replicate, List.length_replicate]
      have h1 := splitLoop_replicate_70021 (70021 + 1) 0 [] (by omega) rfl (by omega)
      have h0 : (700 : Nat) * 0 = 0 := rfl
      rw [h0] at h1
      exact h1
    · rintro (hnil | hshort)
      · have h2 := congrArg List.length hnil
        rw [List.length_replicate, List.length_nil] at h2
        omega
      · rw [pyStrip_replicate, List.length_replicate] at hshort
        omega
  refine ⟨h, ?_⟩
  rw [h]
  simp only [maxChunksPerDocument]
  omega

/-- Claim C2 (amended). The generic chunker produces at most 101 chunks
(101 is reachable, see the counterexample: the loop stops only once the
count exceeds 100), and the ingestion pipeline's truncation step
(`_process_document_chunks`, lines 172-176) then keeps at most the
configured maximum of 100 chunks for embedding/persistence. -/
theorem chunk_cap_amended (content : List Char) :
    (splitIntoChunks content).length ≤ 101 ∧
    (limitChunks (splitIntoChunks content)).length ≤ maxChunksPerDocument := by
  constructor
  · unfold splitIntoChunks
    by_cases hg : content = [] ∨ (pyStrip content).length < 50
    · rw [if_pos hg]; decide
    · rw [if_neg hg]
      exact splitLoop_length_le (pyStrip content) _ 0 [] (by decide)
  · unfold limitChunks
    by_cases hl : (splitIntoChunks content).length > maxChunksPerDocument
    · rw [if_pos hl, List.length_take]
      exact min_le_left _ _
    · rw [if_neg hl]
      omega

/-- Claim C7. For every input whose trimmed length is fewer than 3
characters, `generate_embedding` returns the empty result without calling
the provider; for every other input, the one text actually sent to the
provider is the trimmed input truncated to at most 8000 characters. -/
theorem embedding_client_guard_and_truncation (provider : List Char → Option (List ℚ))
    (text : List Char) :
    ((pyStrip text).length < 3 → generateEmbedding provider text = ([], [])) ∧
    (3 ≤ (pyStrip text).length →
      (generateEmbedding provider text).2 = [(pyStrip text).take 8000] ∧
      ∀ sent ∈ (generateEmbedding provider text).2, sent.length ≤ 8000) := by
  constructor
  · intro hshort
    unfold generateEmbedding
    rw [if_pos (Or.inr hshort)]
  · intro hlong
    have hne : ¬(text = [] ∨ (pyStrip text).length < 3) := by
      rintro (hnil | hlt)
      · rw [hnil] at hlong
        revert hlong
        decide
      · omega
    have htrunc : (if (pyStrip text).length > 8000 then (pyStrip text).take 8000
                   else pyStrip text) = (pyStrip text).take 8000 := by
      by_cases hc : (pyStrip text).length > 8000
      · rw [if_pos hc]
      · rw [if_neg hc, List.take_of_length_le (by omega)]
    have hsnd : (generateEmbedding provider text).2 = [(pyStrip text).take 8000] := by
      unfold generateEmbedding
      rw [if_neg hne]
      show (match provider (if (pyStrip text).length > 8000 then (pyStrip text).take 8000
                            else pyStrip text) with
            | some emb => (emb, [if (pyStrip text).length > 8000 then (pyStrip text).take 8000
                                 else pyStrip text])
            | none => ([], [if (pyStrip text).length > 8000 then (pyStrip text).take 8000
                            else pyStrip text])).2 = [(pyStrip text).take 8000]
      cases provider (if (pyStrip text).length > 8000 then (pyStrip text).take 8000
                     else pyStrip text) with
      | some emb => rw [htrunc]
      | none => rw [htrunc]
    refine ⟨hsnd, ?_⟩
    intro sent hs
    rw [hsnd] at hs
    have h := List.mem_singleton.mp hs
    rw [h, List.length_take]
    exact le_trans (min_le_left _ _) (by omega)

/-- Witness for C7: a 2-character text is rejected without a provider
call; a 4-character text is sent trimmed/truncated. -/
theorem embedding_client_guard_and_truncation_witness :
    (pyStrip ('a' :: 'b' :: [])).length < 3 ∧
    generateEmbedding (fun _ => some [(1 : ℚ)]) ('a' :: 'b' :: []) = ([], []) ∧
    3 ≤ (pyStrip ('a' :: 'b' :: 'c' :: 'd' :: [])).length ∧
    (generateEmbedding (fun _ => some [(1 : ℚ)]) ('a' :: 'b' :: 'c' :: 'd' :: [])).2
      = [(pyStrip ('a' :: 'b' :: 'c' :: 'd' :: [])).take 8000] :=
  ⟨by decide,
   (embedding_client_guard_and_truncation (fun _ => some [(1 : ℚ)]) ('a' :: 'b' :: [])).1
     (by decide),
   by decide,
   ((embedding_client_guard_and_truncation (fun _ => some [(1 : ℚ)])
       ('a' :: 'b' :: 'c' :: 'd' :: [])).2 (by decide)).1⟩

theorem mem_insertDesc {α : Type} (key : α → ℚ) (x a : α) :
    ∀ l : List α, a ∈ insertDesc key x l ↔ a = x ∨ a ∈ l := by
  intro l
  induction l with
  | nil =>
    show a ∈ [x] ↔ a = x ∨ a ∈ ([] : List α)
    simp
  | cons y ys ih =>
    show a ∈ (if key x ≥ key y then x :: y :: ys else y :: insertDesc key x ys) ↔ _
    by_cases h : key x ≥ key y
    · rw [if_pos h]
      simp [List.mem_cons]
    · rw [if_neg h]
      simp only [List.mem_cons, ih]
      tauto

theorem pairwise_insertDesc {α : Type} (key : α → ℚ) (x : α) :
    ∀ l : List α, List.Pairwise (fun a b => key b ≤ key a) l →
      List.Pairwise (fun a b => key b ≤ key a) (insertDesc key x l) := by
  intro l
  induction l with
  | nil =>
    intro _
    show List.Pairwise _ [x]
    simp
  | cons y ys ih =>
    intro h
    rcases List.pairwise_cons.mp h with ⟨hy, hys⟩
    show List.Pairwise _ (if key x ≥ key y then x :: y :: ys else y :: insertDesc key x ys)
    by_cases hxy : key x ≥ key y
    · rw [if_pos hxy]
      refine List.pairwise_cons.mpr ⟨?_, h⟩
      intro b hb
      rcases List.mem_cons.mp hb with rfl | hmem
      · exact hxy
      · exact le_trans (hy b hmem) hxy
    · rw [if_neg hxy]
      refine List.pairwise_cons.mpr ⟨?_, ih hys⟩
      intro b hb
      rcases (mem_insertDesc key x b ys).mp hb with rfl | hmem
      · exact le_of_not_le hxy
      · exact hy b hmem

theorem pairwise_sortByDesc {α : Type} (key : α → ℚ) :
    ∀ l : List α, List.Pairwise (fun a b => key b ≤ key a) (sortByDesc key l) := by
  intro l
  induction l with
  | nil =>
    show List.Pairwise _ ([] : List α)
    simp
  | cons x xs ih =>
    show List.Pairwise _ (insertDesc key x (sortByDesc key xs))
    exact pairwise_insertDesc key x _ ih

theorem mem_sortByDesc {α : Type} (key : α → ℚ) (a : α) :
    ∀ l : List α, a ∈ sortByDesc key l ↔ a ∈ l := by
  intro l
  induction l with
  | nil => exact Iff.rfl
  | cons x xs ih =>
    show a ∈ insertDesc key x (sortByDesc key xs) ↔ a ∈ x :: xs
    rw [mem_insertDesc]
    simp only [List.mem_cons, ih]

/-- Claim C4. For every search request, the returned `SearchResult` list is
sorted in non-increasing order of `relevance_score` (each adjacent pair
satisfies `relevance_score[i] >= relevance_score[i+1]`) and its length is
at most the request's `limit`. -/
theorem search_results_sorted_and_limited (cos : List ℚ → List ℚ → Option ℚ)
    (db : SearchDB) (q : List ℚ) (req : SearchRequest) :
    List.Chain' (fun a b => b.relevanceScore ≤ a.relevanceScore)
      (searchDocuments cos db q req) ∧
    (searchDocuments cos db q req).length ≤ req.limit := by
  unfold searchDocuments
  by_cases hq : q = []
  · rw [if_pos hq]
    exact ⟨List.chain'_nil, Nat.zero_le _⟩
  · rw [if_neg hq]
    constructor
    · apply List.Pairwise.chain'
      apply List.Pairwise.sublist (List.take_sublist _ _)
      exact pairwise_sortByDesc _ _
    · rw [List.length_take]
      exact min_le_left _ _

theorem pipelineCandidates_ready (db : SearchDB) (req : SearchRequest) :
    ∀ cd ∈ pipelineCandidates db req, cd.2.status = DocStatus.ready := by
  intro cd hcd
  rcases List.mem_filterMap.mp hcd with ⟨c, _, hfc⟩
  split at hfc
  · split at hfc
    · split at hfc
      · rename_i hcond
        have h := Option.some.inj hfc
        subst h
        exact hcond.1
      · exact absurd hfc (by simp)
    · exact absurd hfc (by simp)
  · exact absurd hfc (by simp)

theorem scoredChunks_from_candidates (cos : List ℚ → List ℚ → Option ℚ) (db : SearchDB)
    (q : List ℚ) (req : SearchRequest) :
    ∀ s ∈ scoredChunks cos db q req, ∃ cd ∈ pipelineCandidates db req, s.doc = cd.2 := by
  intro s hs
  rcases List.mem_filterMap.mp hs with ⟨cd, hcd, hf⟩
  refine ⟨cd, hcd, ?_⟩
  split at hf
  · split at hf
    · exact absurd hf (by simp)
    · split at hf
      · split at hf
        · have h := Option.some.inj hf
          subst h
          rfl
        · exact absurd hf (by simp)
      · exact absurd hf (by simp)
  · exact absurd hf (by simp)

theorem searchResultsRaw_fields (cos : List ℚ → List ℚ → Option ℚ) (db : SearchDB)
    (q : List ℚ) (req : SearchRequest) :
    ∀ r ∈ searchResultsRaw cos db q req,
      (∃ s0 ∈ docGroup cos db q req r.document.id, r.document = s0.doc) ∧
      r.relevanceScore = maxSim (docGroup cos db q req r.document.id) * (6/10 : ℚ)
        + (totalSim (docGroup cos db q req r.document.id)
            / ((docGroup cos db q req r.document.id).length : ℚ)) * (4/10 : ℚ) ∧
      r.similarityScore = maxSim (docGroup cos db q req r.document.id) := by
  intro r hr
  rcases List.mem_filterMap.mp hr with ⟨did, _, hf⟩
  unfold buildResult at hf
  cases hh : ((topSurvivors cos db q req).filter (fun s => s.doc.id = did)).head? with
  | none => rw [hh] at hf; exact absurd hf (by simp)
  | some s0 =>
    rw [hh] at hf
    have h := Option.some.inj hf
    subst h
    have hs0 : s0 ∈ (topSurvivors cos db q req).filter (fun s => s.doc.id = did) :=
      List.mem_of_mem_head? (by rw [hh]; rfl)
    have hid : s0.doc.id = did := by
      have h2 := (List.mem_filter.mp hs0).2
      simpa using h2
    have hgroup : docGroup cos db q req s0.doc.id
        = (topSurvivors cos db q req).filter (fun s => s.doc.id = did) := by
      unfold docGroup
      rw [hid]
    refine ⟨?_, ?_, ?_⟩
    · show ∃ s1 ∈ docGroup cos db q req s0.doc.id, s0.doc = s1.doc
      rw [hgroup]
      exact ⟨s0, hs0, rfl⟩
    · show maxSim ((topSurvivors cos db q req).filter (fun s => s.doc.id = did)) * (6/10 : ℚ)
          + (totalSim ((topSurvivors cos db q req).filter (fun s => s.doc.id = did))
              / (((topSurvivors cos db q req).filter (fun s => s.doc.id = did)).length : ℚ))
            * (4/10 : ℚ)
        = maxSim (docGroup cos db q req s0.doc.id) * (6/10 : ℚ)
          + (totalSim (docGroup cos db q req s0.doc.id)
              / ((docGroup cos db q req s0.doc.id).length : ℚ)) * (4/10 : ℚ)
      rw [hgroup]
    · show maxSim ((topSurvivors cos db q req).filter (fun s => s.doc.id = did))
        = maxSim (docGroup cos db q req s0.doc.id)
      rw [hgroup]

theorem mem_searchResultsRaw_of_mem_searchDocuments (cos : List ℚ → List ℚ → Option ℚ)
    (db : SearchDB) (q : List ℚ) (req : SearchRequest) (r : SearchResult)
    (hr : r ∈ searchDocuments cos db q req) : r ∈ searchResultsRaw cos db q req := by
  unfold searchDocuments at hr
  by_cases hq : q = []
  · rw [if_pos hq] at hr
    exact absurd hr (by simp)
  · rw [if_neg hq] at hr
    exact (mem_sortByDesc _ r _).mp (List.mem_of_mem_take hr)

unseal Rat.add Rat.mul Rat.inv in
theorem c3result_mem : c3result ∈ searchDocuments c3cos c3db c3q c3req := by decide

unseal Rat.add Rat.mul Rat.inv in
/-- Claim C3 counterexample. On a workspace with one ready document owning
six surviving chunks (similarities 1, 0.9, 0.9, 0.9, 0.9, 0.3) and
`limit = 1`, the source groups only the top `limit * 5 = 5` chunks, so
the returned relevance is `0.6 * 1 + 0.4 * 23/25 = 121/125`, whereas the
claim's mean over all six surviving chunks would give
`0.6 * 1 + 0.4 * 49/60 = 139/150`.  The claim as stated is false. -/
theorem relevance_uses_all_survivors_counterexample : ¬ relevanceClaimStatement := by
  intro hclaim
  have h := (hclaim c3cos c3db c3q c3req c3result c3result_mem).1
  revert h
  unfold docSurvivors
  decide

/-- Claim C3 (amended). Each returned document's `relevance_score` equals
`0.6 * max + 0.4 * mean` where max and mean range over that document's
surviving chunks *among the globally top `limit * 5` surviving chunks by
similarity* (the source groups `chunks[:limit*5]`, not all survivors),
and `similarity_score` equals that max. -/
theorem relevance_formula_over_top_survivors (cos : List ℚ → List ℚ → Option ℚ)
    (db : SearchDB) (q : List ℚ) (req : SearchRequest) (r : SearchResult)
    (hr : r ∈ searchDocuments cos db q req) :
    r.relevanceScore = maxSim (docGroup cos db q req r.document.id) * (6/10 : ℚ)
        + (totalSim (docGroup cos db q req r.document.id)
            / ((docGroup cos db q req r.document.id).length : ℚ)) * (4/10 : ℚ)
    ∧ r.similarityScore = maxSim (docGroup cos db q req r.document.id) := by
  have h := searchResultsRaw_fields cos db q req r
    (mem_searchResultsRaw_of_mem_searchDocuments cos db q req r hr)
  exact ⟨h.2.1, h.2.2⟩

unseal Rat.add Rat.mul Rat.inv in
/-- Witness for the amended C3 at the concrete six-chunk instance. -/
theorem relevance_formula_over_top_survivors_witness :
    c3result ∈ searchDocuments c3cos c3db c3q c3req ∧
    c3result.relevanceScore
      = maxSim (docGroup c3cos c3db c3q c3req c3result.document.id) * (6/10 : ℚ)
        + (totalSim (docGroup c3cos c3db c3q c3req c3result.document.id)
            / ((docGroup c3cos c3db c3q c3req c3result.document.id).length : ℚ)) * (4/10 : ℚ) :=
  ⟨c3result_mem,
   (relevance_formula_over_top_survivors c3cos c3db c3q c3req c3result c3result_mem).1⟩

/-- Claim C9. Only chunks of documents with status `ready` survive the
search pipeline, so no returned `SearchResult` references a document in
the `processing` or `error` state. -/
theorem search_only_ready_documents (cos : List ℚ → List ℚ → Option ℚ) (db : SearchDB)
    (q : List ℚ) (req : SearchRequest) (r : SearchResult)
    (hr : r ∈ searchDocuments cos db q req) :
    r.document.status = DocStatus.ready ∧
    r.document.status ≠ DocStatus.processing ∧ r.document.status ≠ DocStatus.error := by
  have h := searchResultsRaw_fields cos db q req r
    (mem_searchResultsRaw_of_mem_searchDocuments cos db q req r hr)
  rcases h.1 with ⟨s0, hs0, hdoc⟩
  unfold docGroup at hs0
  have hs0top : s0 ∈ topSurvivors cos db q req := (List.mem_filter.mp hs0).1
  have hs0scored : s0 ∈ scoredChunks cos db q req := by
    unfold topSurvivors at hs0top
    exact (mem_sortByDesc _ _ _).mp (List.mem_of_mem_take hs0top)
  rcases scoredChunks_from_candidates cos db q req s0 hs0scored with ⟨cd, hcd, hsdoc⟩
  have hready := pipelineCandidates_ready db req cd hcd
  rw [hdoc, hsdoc]
  refine ⟨hready, ?_, ?_⟩ <;> rw [hready] <;> decide

unseal Rat.add Rat.mul Rat.inv in
/-- Witness for C9 at the concrete instance. -/
theorem search_only_ready_documents_witness :
    c3result ∈ searchDocuments c3cos c3db c3q c3req ∧
    c3result.document.status = DocStatus.ready :=
  ⟨c3result_mem,
   (search_only_ready_documents c3cos c3db c3q c3req c3result c3result_mem).1⟩

theorem splitOnChar_ne_nil (c : Char) : ∀ s : List Char, splitOnChar c s ≠ []
  | [] => by
    show [[]] ≠ ([] : List (List Char))
    simp
  | ch :: rest => by
    show (if ch = c then [] :: splitOnChar c rest
          else match splitOnChar c rest with
               | [] => [[ch]]
               | l :: ls => (ch :: l) :: ls) ≠ []
    by_cases h : ch = c
    · rw [if_pos h]; simp
    · rw [if_neg h]
      cases hs : splitOnChar c rest with
      | nil => simp
      | cons l ls => simp

theorem not_mem_of_mem_splitOnChar (c : Char) :
    ∀ s : List Char, ∀ l ∈ splitOnChar c s, c ∉ l := by
  intro s
  induction s with
  | nil =>
    intro l hl
    rw [show splitOnChar c [] = [[]] from rfl] at hl
    have h := List.mem_singleton.mp hl
    rw [h]
    simp
  | cons ch rest ih =>
    intro l hl
    by_cases h : ch = c
    · rw [show splitOnChar c (ch :: rest) = [] :: splitOnChar c rest from by
        show (if ch = c then [] :: splitOnChar c rest
              else match splitOnChar c rest with
                   | [] => [[ch]]
                   | l :: ls => (ch :: l) :: ls) = [] :: splitOnChar c rest
        rw [if_pos h]] at hl
      rcases List.mem_cons.mp hl with rfl | hm
      · simp
      · exact ih l hm
    · cases hs : splitOnChar c rest with
      | nil => exact absurd hs (splitOnChar_ne_nil c rest)
      | cons m ms =>
        rw [show splitOnChar c (ch :: rest) = (ch :: m) :: ms from by
          show (if ch = c then [] :: splitOnChar c rest
                else match splitOnChar c rest with
                     | [] => [[ch]]
                     | l :: ls => (ch :: l) :: ls) = (ch :: m) :: ms
          rw [if_neg h, hs]] at hl
        rcases List.mem_cons.mp hl with rfl | hm
        · intro hcm
          rcases List.mem_cons.mp hcm with he | hmm
          · exact h he.symm
          · exact ih m (by rw [hs]; exact List.mem_cons_self _ _) hmm
        · exact ih l (by rw [hs]; exact List.mem_cons_of_mem _ hm)

theorem splitOnChar_of_not_mem (c : Char) :
    ∀ s : List Char, c ∉ s → splitOnChar c s = [s] := by
  intro s
  induction s with
  | nil => intro _; rfl
  | cons ch rest ih =>
    intro h
    have hch : ch ≠ c := fun he => h (by rw [he]; exact List.mem_cons_self _ _)
    have hrest : c ∉ rest := fun hm => h (List.mem_cons_of_mem _ hm)
    show (if ch = c then [] :: splitOnChar c rest
          else match splitOnChar c rest with
               | [] => [[ch]]
               | l :: ls => (ch :: l) :: ls) = [ch :: rest]
    rw [if_neg hch, ih hrest]

theorem splitOnChar_append (c : Char) :
    ∀ (l rest : List Char), c ∉ l →
      splitOnChar c (l ++ c :: rest) = l :: splitOnChar c rest := by
  intro l
  induction l with
  | nil =>
    intro rest _
    show (if c = c then [] :: splitOnChar c rest
          else match splitOnChar c rest with
               | [] => [[c]]
               | l :: ls => (c :: l) :: ls) = [] :: splitOnChar c rest
    rw [if_pos rfl]
  | cons ch l' ih =>
    intro rest h
    have hch : ch ≠ c := fun he => h (by rw [he]; exact List.mem_cons_self _ _)
    have hl' : c ∉ l' := fun hm => h (List.mem_cons_of_mem _ hm)
    show (if ch = c then [] :: splitOnChar c (l' ++ c :: rest)
          else match splitOnChar c (l' ++ c :: rest) with
               | [] => [[ch]]
               | l :: ls => (ch :: l) :: ls) = (ch :: l') :: splitOnChar c rest
    rw [if_neg hch, ih rest hl']

theorem splitOnChar_joinLines :
    ∀ ls : List (List Char), ls ≠ [] → (∀ l ∈ ls, '\n' ∉ l) →
      splitOnChar '\n' (joinLines ls) = ls
  | [] => by intro h _; exact absurd rfl h
  | [l] => by
    intro _ hnl
    show splitOnChar '\n' l = [l]
    exact splitOnChar_of_not_mem '\n' l (hnl l (by simp))
  | l :: l2 :: ls => by
    intro _ hnl
    show splitOnChar '\n' (l ++ '\n' :: joinLines (l2 :: ls)) = l :: l2 :: ls
    rw [splitOnChar_append '\n' l _ (hnl l (List.mem_cons_self _ _)),
        splitOnChar_joinLines (l2 :: ls) (by simp)
          (fun x hx => hnl x (List.mem_cons_of_mem _ hx))]

theorem leadsWith_append (p q : List Char) : leadsWith p (p ++ q) = true := by
  induction p with
  | nil => rfl
  | cons c cs ih =>
    show (decide (c = c) && leadsWith cs (cs ++ q)) = true
    simp [ih]

theorem mem_pyStrip {x : Char} {s : List Char} (h : x ∈ pyStrip s) : x ∈ s := by
  unfold pyStrip at h
  rw [List.mem_reverse] at h
  have h2 := (List.dropWhile_sublist _).subset h
  rw [List.mem_reverse] at h2
  exact (List.dropWhile_sublist _).subset h2

theorem findSub_of_leadsWith (s sep : List Char) (h : leadsWith sep s = true) :
    findSub s sep = some 0 := by
  unfold findSub
  rw [List.range_succ_eq_map, List.find?_cons]
  have h0 : leadsWith sep (s.drop 0) = true := by
    rw [List.drop_zero]
    exact h
  rw [h0]

theorem flushChunk_spec (filename : List Char) (i : Nat) (s : List Char) (wsInfo : List Char)
    (hws : wsInfo = wsInfoTag ++ ((splitOnChar '\n' (pyStrip s)).head?.getD []))
    (cur : List (List Char)) (acc : List ExcelChunk)
    (hhead : cur.head? = some wsInfo)
    (hnl : ∀ l ∈ cur, '\n' ∉ l) :
    ∀ ch ∈ flushChunk filename i wsInfo cur acc,
      ch ∈ acc ∨ excelChunkProp filename i s ch := by
  intro ch hch
  unfold flushChunk at hch
  by_cases hg : pyStrip (joinLines cur) ≠ []
  · rw [if_pos hg] at hch
    rcases List.mem_append.mp hch with hmem | hnew
    · exact Or.inl hmem
    · right
      have he := List.mem_singleton.mp hnew
      subst he
      have hne : cur ≠ [] := by
        intro h0
        rw [h0] at hhead
        exact absurd hhead (by simp)
      have hsplit : splitOnChar '\n' (joinLines cur) = cur :=
        splitOnChar_joinLines cur hne hnl
      refine ⟨rfl, rfl, rfl, ?_, ?_, rfl, hws⟩
      · show (cur.filter (fun l => leadsWith rowTag l)).length
            = ((splitOnChar '\n' (joinLines cur)).filter (fun l => leadsWith rowTag l)).length
        rw [hsplit]
      · show (splitOnChar '\n' (joinLines cur)).head? = some wsInfo
        rw [hsplit, hhead]
  · rw [if_neg hg] at hch
    exact Or.inl hch

theorem sectionStep_inv (filename : List Char) (i : Nat) (s : List Char) (wsInfo : List Char)
    (hws : wsInfo = wsInfoTag ++ ((splitOnChar '\n' (pyStrip s)).head?.getD []))
    (hwsne : wsInfo ≠ []) (hwnl : '\n' ∉ wsInfo) (acc₀ : List ExcelChunk)
    (st : List ExcelChunk × List (List Char) × Nat) (rawLine : List Char)
    (hline : '\n' ∉ rawLine)
    (hinv : sectionInv filename i s wsInfo acc₀ st) :
    sectionInv filename i s wsInfo acc₀ (sectionStep filename i wsInfo st rawLine) := by
  obtain ⟨acc, cur0, size0⟩ := st
  obtain ⟨hacc, hcur, hnl⟩ := hinv
  have hlnl : '\n' ∉ pyStrip rawLine := fun hm => hline (mem_pyStrip hm)
  show sectionInv filename i s wsInfo acc₀
    (if pyStrip rawLine = [] then (acc, cur0, size0)
     else
       if seedSize wsInfo cur0 size0 + (pyStrip rawLine).length > 800
           ∧ seedLines wsInfo cur0 ≠ [] then
         (flushChunk filename i wsInfo (seedLines wsInfo cur0) acc,
          (if wsInfo ≠ [] then [wsInfo] else []) ++ [pyStrip rawLine],
          (if wsInfo ≠ [] then wsInfo.length else 0) + (pyStrip rawLine).length)
       else (acc, seedLines wsInfo cur0 ++ [pyStrip rawLine],
             seedSize wsInfo cur0 size0 + (pyStrip rawLine).length))
  have hseedhead : seedLines wsInfo cur0 = [] ∨ (seedLines wsInfo cur0).head? = some wsInfo := by
    unfold seedLines
    by_cases h0 : cur0 = [] ∧ wsInfo ≠ []
    · rw [if_pos h0]
      right
      rfl
    · rw [if_neg h0]
      exact hcur
  have hseednl : ∀ l ∈ seedLines wsInfo cur0, '\n' ∉ l := by
    unfold seedLines
    by_cases h0 : cur0 = [] ∧ wsInfo ≠ []
    · rw [if_pos h0]
      intro l hl
      rw [List.mem_singleton.mp hl]
      exact hwnl
    · rw [if_neg h0]
      exact hnl
  by_cases h1 : pyStrip rawLine = []
  · rw [if_pos h1]
    exact ⟨hacc, hcur, hnl⟩
  · rw [if_neg h1]
    by_cases h2 : seedSize wsInfo cur0 size0 + (pyStrip rawLine).length > 800
        ∧ seedLines wsInfo cur0 ≠ []
    · rw [if_pos h2]
      have hseedh : (seedLines wsInfo cur0).head? = some wsInfo := by
        rcases hseedhead with h0 | h0
        · exact absurd h0 h2.2
        · exact h0
      refine ⟨?_, ?_, ?_⟩
      · intro ch hch
        rcases flushChunk_spec filename i s wsInfo hws (seedLines wsInfo cur0) acc
            hseedh hseednl ch hch with hm | hp
        · exact hacc ch hm
        · exact Or.inr hp
      · right
        rw [if_pos hwsne]
        rfl
      · intro l hl
        rw [if_pos hwsne] at hl
        rcases List.mem_append.mp hl with hm | hm
        · rw [List.mem_singleton.mp hm]
          exact hwnl
        · rw [List.mem_singleton.mp hm]
          exact hlnl
    · rw [if_neg h2]
      have hseedne : seedLines wsInfo cur0 ≠ [] := by
        unfold seedLines
        by_cases hc : cur0 = [] ∧ wsInfo ≠ []
        · rw [if_pos hc]; simp
        · rw [if_neg hc]
          intro h0
          exact hc ⟨h0, hwsne⟩
      have hseedh : (seedLines wsInfo cur0).head? = some wsInfo := by
        rcases hseedhead with h0 | h0
        · exact absurd h0 hseedne
        · exact h0
      refine ⟨hacc, ?_, ?_⟩
      · right
        cases hse : seedLines wsInfo cur0 with
        | nil => exact absurd hse hseedne
        | cons a as =>
          rw [hse] at hseedh
          exact hseedh
      · intro l hl
        rcases List.mem_append.mp hl with hm | hm
        · exact hseednl l hm
        · rw [List.mem_singleton.mp hm]
          exact hlnl

theorem sectionFold_inv (filename : List Char) (i : Nat) (s : List Char) (wsInfo : List Char)
    (hws : wsInfo = wsInfoTag ++ ((splitOnChar '\n' (pyStrip s)).head?.getD []))
    (hwsne : wsInfo ≠ []) (hwnl : '\n' ∉ wsInfo) (acc₀ : List ExcelChunk) :
    ∀ (ls : List (List Char)), (∀ l ∈ ls, '\n' ∉ l) →
      ∀ st, sectionInv filename i s wsInfo acc₀ st →
        sectionInv filename i s wsInfo acc₀
          (ls.foldl (sectionStep filename i wsInfo) st) := by
  intro ls
  induction ls with
  | nil => intro _ st hst; exact hst
  | cons l ls' ih =>
    intro hnl st hst
    show sectionInv filename i s wsInfo acc₀
      (ls'.foldl (sectionStep filename i wsInfo) (sectionStep filename i wsInfo st l))
    exact ih (fun x hx => hnl x (List.mem_cons_of_mem _ hx))
      (sectionStep filename i wsInfo st l)
      (sectionStep_inv filename i s wsInfo hws hwsne hwnl acc₀ st l
        (hnl l (List.mem_cons_self _ _)) hst)

theorem processSection_spec (filename : List Char) (i : Nat) (hi : 0 < i) (s : List Char)
    (acc : List ExcelChunk) :
    ∀ ch ∈ processSection filename i s acc, ch ∈ acc ∨ excelChunkProp filename i s ch := by
  intro ch hch
  unfold processSection at hch
  by_cases h1 : pyStrip s = []
  · rw [if_pos h1] at hch
    exact Or.inl hch
  · rw [if_neg h1] at hch
    by_cases h2 : splitOnChar '\n' (pyStrip s) = []
    · exact absurd h2 (splitOnChar_ne_nil _ _)
    · rw [if_neg h2] at hch
      have hwseq : sectionWsInfo i s
          = wsInfoTag ++ ((splitOnChar '\n' (pyStrip s)).head?.getD []) := by
        unfold sectionWsInfo
        rw [if_pos hi]
      have hwsne : sectionWsInfo i s ≠ [] := by
        rw [hwseq]
        intro h0
        have := congrArg List.length h0
        rw [List.length_append] at this
        have hlen : wsInfoTag.length = 10 := by decide
        rw [List.length_nil] at this
        omega
      have hwnl : '\n' ∉ sectionWsInfo i s := by
        rw [hwseq]
        intro hm
        rcases List.mem_append.mp hm with hm1 | hm1
        · revert hm1
          decide
        · cases hh : (splitOnChar '\n' (pyStrip s)).head? with
          | none => rw [hh] at hm1; revert hm1; simp [Option.getD]
          | some L0 =>
            rw [hh] at hm1
            have hL0 : L0 ∈ splitOnChar '\n' (pyStrip s) := List.mem_of_mem_head? (by rw [hh]; rfl)
            exact not_mem_of_mem_splitOnChar '\n' (pyStrip s) L0 hL0 (by simpa using hm1)
      have hlinesnl : ∀ l ∈ sectionContentLines i s, '\n' ∉ l := by
        intro l hl
        unfold sectionContentLines at hl
        rw [if_pos hi] at hl
        exact not_mem_of_mem_splitOnChar '\n' (pyStrip s) l
          ((List.drop_sublist _ _).subset hl)
      have hfold := sectionFold_inv filename i s (sectionWsInfo i s) hwseq hwsne hwnl acc
        (sectionContentLines i s) hlinesnl (acc, [], 0)
        ⟨fun c hc => Or.inl hc, Or.inl rfl, fun l hl => absurd hl (by simp)⟩
      set st := (sectionContentLines i s).foldl (sectionStep filename i (sectionWsInfo i s))
        (acc, [], 0) with hstdef
      unfold sectionFlushFinal at hch
      by_cases h3 : st.2.1 ≠ []
      · rw [if_pos h3] at hch
        have hhd : st.2.1.head? = some (sectionWsInfo i s) := by
          rcases hfold.2.1 with h0 | h0
          · exact absurd h0 h3
          · exact h0
        rcases flushChunk_spec filename i s (sectionWsInfo i s) hwseq st.2.1 st.1
            hhd hfold.2.2 ch hch with hm | hp
        · exact hfold.1 ch hm
        · exact Or.inr hp
      · rw [if_neg h3] at hch
        exact hfold.1 ch hch

theorem foldProcess_spec (filename : List Char) :
    ∀ (ps : List (Nat × List Char)) (acc : List ExcelChunk),
      (∀ p ∈ ps, 0 < p.1 ∨ pyStrip p.2 = []) →
      ∀ ch ∈ ps.foldl (fun a p => processSection filename p.1 p.2 a) acc,
        ch ∈ acc ∨ ∃ p ∈ ps, 0 < p.1 ∧ excelChunkProp filename p.1 p.2 ch := by
  intro ps
  induction ps with
  | nil => intro acc _ ch hch; exact Or.inl hch
  | cons p ps' ih =>
    intro acc hpos ch hch
    show ch ∈ acc ∨ _
    have hch' : ch ∈ ps'.foldl (fun a q => processSection filename q.1 q.2 a)
        (processSection filename p.1 p.2 acc) := hch
    rcases ih (processSection filename p.1 p.2 acc)
        (fun q hq => hpos q (List.mem_cons_of_mem _ hq)) ch hch' with hm | ⟨q, hq, hqpos, hqprop⟩
    · rcases hpos p (List.mem_cons_self _ _) with hp1 | hp2
      · rcases processSection_spec filename p.1 hp1 p.2 acc ch hm with hm2 | hprop
        · exact Or.inl hm2
        · exact Or.inr ⟨p, List.mem_cons_self _ _, hp1, hprop⟩
      · have heq : processSection filename p.1 p.2 acc = acc := by
          unfold processSection
          rw [if_pos hp2]
        rw [heq] at hm
        exact Or.inl hm
    · exact Or.inr ⟨q, List.mem_cons_of_mem _ hq, hqpos, hqprop⟩

/-- Claim C8. For every extracted-text input (which begins with the
worksheet marker the extractor emits), every chunk the tabular chunker
produces has the worksheet context line as its first line, and its
metadata records chunk type `excel_data`, the source file name, the
worksheet-section index (pointing at the split section the chunk came
from), whether the chunk text contains `Headers:`, and the count of its
lines beginning with `Row`. -/
theorem excel_chunks_context_and_metadata (content filename : List Char)
    (hstart : leadsWith wsMarker content = true) :
    ∀ ch ∈ createExcelChunks content filename,
      ch.metadata.chunkType = excelDataTag ∧
      ch.metadata.sourceFile = filename ∧
      ch.metadata.hasHeaders = containsSub ch.content headersTag ∧
      ch.metadata.rowCount
        = ((splitOnChar '\n' ch.content).filter (fun l => leadsWith rowTag l)).length ∧
      (splitOnChar '\n' ch.content).head? = some ch.metadata.worksheetInfo ∧
      leadsWith wsInfoTag ch.metadata.worksheetInfo = true ∧
      ∃ sec, (splitOnSub wsMarker content).get? ch.metadata.worksheetSection = some sec ∧
        ch.metadata.worksheetInfo
          = wsInfoTag ++ ((splitOnChar '\n' (pyStrip sec)).head?.getD []) := by
  intro ch hch
  unfold createExcelChunks at hch
  have hsecseq : splitOnSub wsMarker content
      = [] :: splitOnSubAux wsMarker content.length (content.drop (0 + wsMarker.length)) := by
    show splitOnSubAux wsMarker (content.length + 1) content = _
    rw [show splitOnSubAux wsMarker (content.length + 1) content
        = (match findSub content wsMarker with
           | none => [content]
           | some i => content.take i
               :: splitOnSubAux wsMarker content.length (content.drop (i + wsMarker.length)))
        from rfl, findSub_of_leadsWith content wsMarker hstart]
    rfl
  have hps : ∀ p ∈ (splitOnSub wsMarker content).enum, 0 < p.1 ∨ pyStrip p.2 = [] := by
    intro p hp
    obtain ⟨pi, ps⟩ := p
    rw [hsecseq, List.enum_cons] at hp
    rcases List.mem_cons.mp hp with he | hm
    · right
      have hps0 : ps = [] := congrArg Prod.snd he
      rw [hps0]
      rfl
    · left
      have h1 := (List.mem_enumFrom hm).1
      omega
  rcases foldProcess_spec filename _ [] hps ch hch with hm | ⟨p, hp, hppos, hprop⟩
  · exact absurd hm (by simp)
  · obtain ⟨h1, h2, h3, h4, h5, h6, h7⟩ := hprop
    refine ⟨h1, h2, h3, h4, h5, ?_, ?_⟩
    · rw [h7]
      exact leadsWith_append _ _
    · refine ⟨p.2, ?_, h7⟩
      rw [h6]
      exact List.mem_enum_iff_get?.mp hp

/-- Witness for C8 on a one-worksheet extracted text. -/
theorem excel_chunks_context_and_metadata_witness :
    leadsWith wsMarker c8content = true ∧
    c8chunk ∈ createExcelChunks c8content c8file ∧
    c8chunk.metadata.chunkType = excelDataTag ∧
    (splitOnChar '\n' c8chunk.content).head? = some c8chunk.metadata.worksheetInfo :=
  ⟨by decide, by decide,
   (excel_chunks_context_and_metadata c8content c8file (by decide) c8chunk (by decide)).1,
   (excel_chunks_context_and_metadata c8content c8file (by decide) c8chunk
     (by decide)).2.2.2.2.1⟩

theorem setChunkCount_fresh (l : List StoredDoc) (i n : Nat) (h : ∀ d ∈ l, d.id ≠ i) :
    setChunkCount l i n = l := by
  unfold setChunkCount
  have h2 : l.map (fun d => if d.id = i then { d with chunkCount := n } else d)
      = l.map id := by
    apply List.map_congr_left
    intro a ha
    rw [if_neg (h a ha)]
    rfl
  rw [h2, List.map_id]

theorem setStatus_fresh (l : List StoredDoc) (i : Nat) (st : DocStatus)
    (h : ∀ d ∈ l, d.id ≠ i) : setStatus l i st = l := by
  unfold setStatus
  have h2 : l.map (fun d => if d.id = i then { d with status := st } else d)
      = l.map id := by
    apply List.map_congr_left
    intro a ha
    rw [if_neg (h a ha)]
    rfl
  rw [h2, List.map_id]

theorem setChunkCount_append (l : List StoredDoc) (d : StoredDoc) (i n : Nat)
    (h : ∀ x ∈ l, x.id ≠ i) (hd : d.id = i) :
    setChunkCount (l ++ [d]) i n = l ++ [{ d with chunkCount := n }] := by
  unfold setChunkCount
  rw [List.map_append]
  congr 1
  · exact setChunkCount_fresh l i n h
  · show [if d.id = i then { d with chunkCount := n } else d] = _
    rw [if_pos hd]

theorem setStatus_append (l : List StoredDoc) (d : StoredDoc) (i : Nat) (st : DocStatus)
    (h : ∀ x ∈ l, x.id ≠ i) (hd : d.id = i) :
    setStatus (l ++ [d]) i st = l ++ [{ d with status := st }] := by
  unfold setStatus
  rw [List.map_append]
  congr 1
  · exact setStatus_fresh l i st h
  · show [if d.id = i then { d with status := st } else d] = _
    rw [if_pos hd]

theorem find?_id_append (l : List StoredDoc) (d : StoredDoc) (i : Nat)
    (h : ∀ x ∈ l, x.id ≠ i) (hd : d.id = i) :
    (l ++ [d]).find? (fun x => x.id = i) = some d := by
  rw [List.find?_append]
  have h1 : l.find? (fun x => x.id = i) = none :=
    List.find?_eq_none.mpr (fun x hx => by simpa using h x hx)
  rw [h1]
  show Option.or none ([d].find? (fun x => x.id = i)) = some d
  rw [Option.none_or]
  rw [List.find?_cons, show (decide (d.id = i)) = true from by simp [hd]]

theorem uploadDocument_success_spec (embed : List Char → List ℚ) (db : PipelineDB)
    (newId : Nat) (filename : List Char) (fileSize : Nat) (workspace : List Char)
    (wsId : Nat) (content : List Char)
    (hfresh : ∀ d ∈ db.docs, d.id ≠ newId)
    (h1 : ¬(filename = []))
    (h2 : ¬(workspace = [] ∨ pyStrip workspace = []))
    (h3 : isValidFileType filename = true)
    (h4 : ¬(fileSize ≠ 0 ∧ fileSize > maxFileSize))
    (h5 : ¬(content = [] ∨ (pyStrip content).length < 10)) :
    (uploadDocument embed db newId filename fileSize workspace wsId content).1
      = Except.ok { insertedDoc newId wsId filename content with status := DocStatus.ready } ∧
    (uploadDocument embed db newId filename fileSize workspace wsId content).2.docs
      = db.docs ++ [{ insertedDoc newId wsId filename content with
          status := DocStatus.ready,
          chunkCount :=
            (successfulChunkDocs embed newId wsId (producedChunks filename content)).length }] ∧
    (uploadDocument embed db newId filename fileSize workspace wsId content).2.chunkRecs
      = db.chunkRecs ++ successfulChunkDocs embed newId wsId (producedChunks filename content) := by
  have hfind : ((db.docs ++ [insertedDoc newId wsId filename content]).find?
      (fun d => d.id = newId)) = some (insertedDoc newId wsId filename content) :=
    find?_id_append db.docs _ newId hfresh rfl
  have hproc : processDocumentChunks embed
      { db with docs := db.docs ++ [insertedDoc newId wsId filename content] }
      newId content wsId
      = { docs := db.docs ++ [{ insertedDoc newId wsId filename content with
            chunkCount :=
              (successfulChunkDocs embed newId wsId (producedChunks filename content)).length }],
          chunkRecs := db.chunkRecs
            ++ successfulChunkDocs embed newId wsId (producedChunks filename content) } := by
    unfold processDocumentChunks
    rw [show ({ db with docs := db.docs ++ [insertedDoc newId wsId filename content] }
        : PipelineDB).docs = db.docs ++ [insertedDoc newId wsId filename content] from rfl,
      hfind]
    show ({ docs := setChunkCount (db.docs ++ [insertedDoc newId wsId filename content]) newId
              (successfulChunkDocs embed newId wsId
                (chunksForDoc (insertedDoc newId wsId filename content) content)).length,
            chunkRecs := db.chunkRecs ++ successfulChunkDocs embed newId wsId
              (chunksForDoc (insertedDoc newId wsId filename content) content) } : PipelineDB)
        = _
    rw [show chunksForDoc (insertedDoc newId wsId filename content) content
        = producedChunks filename content from rfl]
    rw [setChunkCount_append db.docs _ newId _ hfresh rfl]
  have hbody : uploadBody embed db newId filename fileSize workspace wsId content
      = (Except.ok { insertedDoc newId wsId filename content with status := DocStatus.ready },
         { docs := setStatus (db.docs ++ [{ insertedDoc newId wsId filename content with
               chunkCount := (successfulChunkDocs embed newId wsId
                 (producedChunks filename content)).length }]) newId DocStatus.ready,
           chunkRecs := db.chunkRecs
             ++ successfulChunkDocs embed newId wsId (producedChunks filename content) },
         some newId) := by
    unfold uploadBody
    rw [if_neg h1, if_neg h2, if_neg (not_not_intro h3), if_neg h4, if_neg h5, hproc]
  have hupload : uploadDocument embed db newId filename fileSize workspace wsId content
      = (Except.ok { insertedDoc newId wsId filename content with status := DocStatus.ready },
         { docs := setStatus (db.docs ++ [{ insertedDoc newId wsId filename content with
               chunkCount := (successfulChunkDocs embed newId wsId
                 (producedChunks filename content)).length }]) newId DocStatus.ready,
           chunkRecs := db.chunkRecs
             ++ successfulChunkDocs embed newId wsId (producedChunks filename content) }) := by
    unfold uploadDocument
    rw [hbody]
  rw [hupload]
  refine ⟨rfl, ?_, rfl⟩
  show setStatus (db.docs ++ [{ insertedDoc newId wsId filename content with
      chunkCount := (successfulChunkDocs embed newId wsId
        (producedChunks filename content)).length }]) newId DocStatus.ready = _
  rw [setStatus_append db.docs _ newId _ hfresh rfl]

/-- Claim C5. Embedding failures (the client's empty-list result) during
ingestion skip the affected chunks without aborting the pipeline: the
upload succeeds, the stored document record ends with status `ready` and
`chunk_count` equal to the number of chunks whose embedding succeeded,
and exactly those chunks are persisted. -/
theorem embedding_failures_are_skipped (embed : List Char → List ℚ) (db : PipelineDB)
    (newId : Nat) (filename : List Char) (fileSize : Nat) (workspace : List Char)
    (wsId : Nat) (content : List Char)
    (hfresh : ∀ d ∈ db.docs, d.id ≠ newId)
    (h1 : ¬(filename = []))
    (h2 : ¬(workspace = [] ∨ pyStrip workspace = []))
    (h3 : isValidFileType filename = true)
    (h4 : ¬(fileSize ≠ 0 ∧ fileSize > maxFileSize))
    (h5 : ¬(content = [] ∨ (pyStrip content).length < 10)) :
    ∃ finalDoc,
      (uploadDocument embed db newId filename fileSize workspace wsId content).2.docs
        = db.docs ++ [finalDoc] ∧
      finalDoc.status = DocStatus.ready ∧
      finalDoc.chunkCount
        = (successfulChunkDocs embed newId wsId (producedChunks filename content)).length ∧
      (uploadDocument embed db newId filename fileSize workspace wsId content).2.chunkRecs
        = db.chunkRecs ++ successfulChunkDocs embed newId wsId (producedChunks filename content) ∧
      ∃ d, (uploadDocument embed db newId filename fileSize workspace wsId content).1
          = Except.ok d ∧ d.status = DocStatus.ready := by
  obtain ⟨ha, hb, hc⟩ := uploadDocument_success_spec embed db newId filename fileSize
    workspace wsId content hfresh h1 h2 h3 h4 h5
  exact ⟨_, hb, rfl, rfl, hc, _, ha, rfl⟩

set_option maxRecDepth 40000 in
/-- Witness for C5: a 721-character text chunks into two pieces (721 and
21 characters); the embedding client fails on the first and succeeds on
the second, so exactly one chunk is persisted and `chunk_count = 1`. -/
theorem embedding_failures_are_skipped_witness :
    (∃ finalDoc,
      (uploadDocument c5embed c5db 7 c5file 100 (("w").data) 1 c5content).2.docs
        = c5db.docs ++ [finalDoc] ∧
      finalDoc.status = DocStatus.ready ∧
      finalDoc.chunkCount
        = (successfulChunkDocs c5embed 7 1 (producedChunks c5file c5content)).length ∧
      (uploadDocument c5embed c5db 7 c5file 100 (("w").data) 1 c5content).2.chunkRecs
        = c5db.chunkRecs ++ successfulChunkDocs c5embed 7 1 (producedChunks c5file c5content) ∧
      ∃ d, (uploadDocument c5embed c5db 7 c5file 100 (("w").data) 1 c5content).1
          = Except.ok d ∧ d.status = DocStatus.ready) ∧
    (producedChunks c5file c5content).length = 2 ∧
    (successfulChunkDocs c5embed 7 1 (producedChunks c5file c5content)).length = 1 :=
  ⟨embedding_failures_are_skipped c5embed c5db 7 c5file 100 (("w").data) 1 c5content
     (by decide) (by decide) (by decide) (by decide) (by decide) (by decide),
   by decide, by decide⟩

/-- Claim C6 (the code evaluated at the failing input). With extracted
content of trimmed length 2 < 10, the body of `upload_document` raises
the typed content-too-short failure after extraction and before any
insert — the state is unchanged and no document id exists — but the
surrounding `except Exception` handler converts it into the generic 500
upload failure, so the typed `ExtractionEmpty`-style error never reaches
the caller. -/
theorem short_content_rejected_before_persistence (embed : List Char → List ℚ)
    (db : PipelineDB) (newId : Nat) :
    uploadBody embed db newId (("a.txt").data) 100 (("w").data) 1 (("hi").data)
      = (Except.error UploadError.contentTooShort, db, none) ∧
    uploadDocument embed db newId (("a.txt").data) 100 (("w").data) 1 (("hi").data)
      = (Except.error UploadError.uploadFailed, db) := by
  have hb : uploadBody embed db newId (("a.txt").data) 100 (("w").data) 1 (("hi").data)
      = (Except.error UploadError.contentTooShort, db, none) := by
    unfold uploadBody
    rw [if_neg (by decide), if_neg (by decide), if_neg (by decide), if_neg (by decide),
        if_pos (by decide)]
  refine ⟨hb, ?_⟩
  unfold uploadDocument
  rw [hb]

/-- Claim C10. A text stripping to fewer than 50 characters produces no
generic chunks; consequently a non-tabular upload whose extracted content
strips to between 10 and 49 characters succeeds and its stored document
record ends with status `ready` and `chunk_count = 0`, with no chunk
records persisted. -/
theorem tiny_content_ready_with_zero_chunks :
    (∀ content : List Char, (pyStrip content).length < 50 → splitIntoChunks content = []) ∧
    (∀ (embed : List Char → List ℚ) (db : PipelineDB) (newId : Nat) (filename : List Char)
       (fileSize : Nat) (workspace : List Char) (wsId : Nat) (content : List Char),
      (∀ d ∈ db.docs, d.id ≠ newId) →
      ¬(filename = []) → ¬(workspace = [] ∨ pyStrip workspace = []) →
      isValidFileType filename = true → ¬(fileSize ≠ 0 ∧ fileSize > maxFileSize) →
      getDocumentType filename ≠ DocType.xlsx → getDocumentType filename ≠ DocType.xls →
      10 ≤ (pyStrip content).length → (pyStrip content).length < 50 →
      ∃ finalDoc,
        (uploadDocument embed db newId filename fileSize workspace wsId content).2.docs
          = db.docs ++ [finalDoc] ∧
        finalDoc.status = DocStatus.ready ∧ finalDoc.chunkCount = 0 ∧
        (uploadDocument embed db newId filename fileSize workspace wsId content).2.chunkRecs
          = db.chunkRecs) := by
  have hempty : ∀ content : List Char,
      (pyStrip content).length < 50 → splitIntoChunks content = [] := by
    intro content h
    unfold splitIntoChunks
    rw [if_pos (Or.inr h)]
  refine ⟨hempty, ?_⟩
  intro embed db newId filename fileSize workspace wsId content hfresh h1 h2 h3 h4 hx1 hx2 h10 h50
  have h5 : ¬(content = [] ∨ (pyStrip content).length < 10) := by
    rintro (hnil | hlt)
    · rw [hnil] at h10
      revert h10
      decide
    · omega
  obtain ⟨ha, hb, hc⟩ := uploadDocument_success_spec embed db newId filename fileSize
    workspace wsId content hfresh h1 h2 h3 h4 h5
  have hchunks : producedChunks filename content = [] := by
    unfold producedChunks
    rw [if_neg ?_]
    · exact hempty content h50
    · rintro (hh | hh)
      · exact hx1 hh
      · exact hx2 hh
  have hzero : successfulChunkDocs embed newId wsId (producedChunks filename content) = [] := by
    rw [hchunks]
    rfl
  refine ⟨_, hb, rfl, ?_, ?_⟩
  · show (successfulChunkDocs embed newId wsId (producedChunks filename content)).length = 0
    rw [hzero]
    rfl
  · rw [hc, hzero, List.append_nil]

/-- Witness for C10 at a 20-character text. -/
theorem tiny_content_ready_with_zero_chunks_witness :
    ((pyStrip (List.replicate 20 'x')).length < 50 ∧
      splitIntoChunks (List.replicate 20 'x') = []) ∧
    (10 ≤ (pyStrip (List.replicate 20 'x')).length ∧
      ∃ finalDoc,
        (uploadDocument c5embed c5db 7 c5file 100 (("w").data) 1
            (List.replicate 20 'x')).2.docs = c5db.docs ++ [finalDoc] ∧
        finalDoc.status = DocStatus.ready ∧ finalDoc.chunkCount = 0 ∧
        (uploadDocument c5embed c5db 7 c5file 100 (("w").data) 1
            (List.replicate 20 'x')).2.chunkRecs = c5db.chunkRecs) :=
  ⟨⟨by decide, tiny_content_ready_with_zero_chunks.1 (List.replicate 20 'x') (by decide)⟩,
   by decide,
   tiny_content_ready_with_zero_chunks.2 c5embed c5db 7 c5file 100 (("w").data) 1
     (List.replicate 20 'x') (by decide) (by decide) (by decide) (by decide) (by decide)
     (by decide) (by decide) (by decide) (by decide)⟩
